import Mathlib

/-!
# Verification of the Flux compiler front end

A shallow embedding of the Flux compiler front end (lexer, name resolver,
type checker, Sema driver, and IR emitter) together with proofs about it.
Each definition is translated from the corresponding C++ source file:

* `src/lib/Lexer/Lexer.cpp` and `include/flux/Lexer/Lexer.h`, `Token.h`
* `src/lib/Sema/NameResolution.cpp` and `include/flux/Sema/NameResolution.h`
* `src/lib/Sema/Sema.cpp` (Sema driver and TypeChecker)
* `src/lib/CodeGen/IREmitter.cpp` (and the TypeMapper)
* `src/tools/flux/main.cpp` (driver phase sequencing)

Machine integers: the C++ code stores int64_t literal values; the embedding
uses Int together with the explicit bound 2^63 - 1 where overflow matters.
C++ exceptions (std::stoll, std::stod) are modelled with Except.
The double conversion performed by std::stod is not modelled (floating
point); float tokens carry the cleaned literal text instead.
DiagnosticEngine: only emitError is reachable from the embedded code, so
diagnostics are modelled as a list of Diag values, one constructor per
emitError call site, each recording the data interpolated into the message.
-/

namespace Flux

/-! ## Diagnostics (Common/Diagnostics.h)

Each constructor corresponds to one emitError call site; the comment gives
the literal C++ message text (with <x> for interpolated data). -/

inductive Diag where
  /-- "unterminated block comment" -/
  | unterminatedBlockComment
  /-- "expected hexadecimal digit after <0x>" -/
  | expectedHexDigit
  /-- "expected binary digit after <0b>" -/
  | expectedBinaryDigit
  /-- "expected digit in exponent" -/
  | expectedDigitInExponent
  /-- "unterminated string literal" -/
  | unterminatedString
  /-- "unterminated string literal (newline in string)" -/
  | newlineInString
  /-- "unterminated character literal" -/
  | unterminatedChar
  /-- "unterminated character literal (expected closing <quote>)" -/
  | unterminatedCharClosing
  /-- "unexpected character <!>" -/
  | unexpectedBang
  /-- "unexpected character <c>" -/
  | unexpectedChar (c : Char)
  /-- "redefinition of <name>" (NameResolver::registerDecl) -/
  | redefinition (name : String)
  /-- "redefinition of variable <name>" (let statements) -/
  | redefinitionVariable (name : String)
  /-- "redefinition of constant <name>" (const statements) -/
  | redefinitionConstant (name : String)
  /-- "use of undeclared identifier <name>" -/
  | undeclaredIdent (name : String)
  /-- "unknown return type <t> in function <fn>" -/
  | unknownReturnType (t fn : String)
  /-- "unknown parameter type <t> for parameter <p>" -/
  | unknownParamType (t p : String)
  /-- "parameter <p> must have an explicit type annotation" -/
  | paramNeedsTypeAnn (p : String)
  /-- "unknown field type <t> for field <f> in struct <s>" -/
  | unknownStructFieldType (t f s : String)
  /-- "unknown field type <t> for field <f> in class <c>" -/
  | unknownClassFieldType (t f c : String)
  /-- "unknown type <t> in enum variant <v>" -/
  | unknownEnumVariantType (t v : String)
  /-- "unknown type <t> in let binding" -/
  | unknownLetType (t : String)
  /-- "type mismatch: expected <e>, got <g>" -/
  | typeMismatch (e g : String)
  /-- "variable <v> must have an explicit type annotation" -/
  | letNeedsTypeAnn (v : String)
  /-- "return type mismatch: expected <e>, got <g>" -/
  | returnTypeMismatch (e g : String)
  /-- "non-void function must return a value" -/
  | nonVoidReturn
  /-- "condition must be of type Bool, got <t>" -/
  | conditionNotBool (t : String)
  /-- "binary expression type mismatch: <l> vs <r>" -/
  | binaryTypeMismatch (l r : String)
  /-- "unknown variable <n>" (IREmitter::emitIdent) -/
  | unknownVariable (n : String)
  /-- "unknown function <n>" (IREmitter::emitCallExpr) -/
  | unknownFunction (n : String)
  /-- "generated invalid IR for function <f>" (IREmitter::emitFuncDecl) -/
  | invalidIR (f : String)
  deriving DecidableEq, Repr

/-! ## Type AST nodes (AST/Type.h) -/

inductive TypeNode where
  /-- NamedType: path segments, e.g. ["std", "collections", "HashMap"] -/
  | named (path : List String)
  /-- GenericType: base (a NamedType, kept as its path) plus type arguments -/
  | generic (basePath : List String) (typeArguments : List TypeNode)
  /-- ReferenceType: ref T (the optional lifetime is never inspected) -/
  | reference (inner : TypeNode)
  /-- MutRefType: mut ref T -/
  | mutRefT (inner : TypeNode)
  /-- TupleType -/
  | tupleT (elements : List TypeNode)
  /-- FunctionType -/
  | functionT (paramTypes : List TypeNode) (returnType : TypeNode)
  /-- ArrayType: element type and optional fixed size -/
  | arrayT (elementType : TypeNode) (size : Option Nat)
  /-- TypeNode::Kind::Option -/
  | optionT
  /-- TypeNode::Kind::Result -/
  | resultT
  /-- TypeNode::Kind::Inferred (placeholder, not used in Flux) -/
  | inferred

/-! ## Expression, statement, pattern AST nodes (AST/Expr.h, Stmt.h, Pattern.h)

GenericType.base in the C++ is a NamedType pointer; it is represented here
by its path.  Nullable child pointers become Option.  The Stmt::Kind
enumeration also lists an Assignment kind, but no AST class with that kind
exists in Stmt.h and the parser header declares no producer for it, so it
has no constructor here (it would only hit default switch cases). -/

inductive BinaryOp where
  | add | sub | mul | div | mod
  | eq | ne | lt | le | gt | ge
  | and | or
  | bitAnd | bitOr | bitXor | shiftLeft | shiftRight
  deriving DecidableEq, Repr

inductive UnaryOp where
  | negate | not | bitwiseNot
  deriving DecidableEq, Repr

inductive CompoundAssignOp where
  | addAssign | subAssign | mulAssign | divAssign | modAssign
  | andAssign | orAssign | xorAssign
  deriving DecidableEq, Repr

/-- ClosureExpr parameter: name plus optional type. -/
structure ClosureParam where
  name : String
  type : Option TypeNode

mutual

inductive Expr where
  | intLit (value : Int)
  | floatLit (text : String)
  | stringLit (value : String)
  | charLit (value : Char)
  | boolLit (value : Bool)
  | ident (name : String)
  | path (segments : List String)
  | binary (op : BinaryOp) (lhs rhs : Expr)
  | unary (op : UnaryOp) (operand : Expr)
  | call (callee : Expr) (arguments : List Expr)
  | methodCall (object : Expr) (method : String) (arguments : List Expr)
  | memberAccess (object : Expr) (member : String)
  | indexE (object : Expr) (index : Expr)
  | cast (e : Expr) (targetType : TypeNode)
  | blockE (statements : List Stmt) (finalExpr : Option Expr)
  | ifE (condition : Expr) (thenExpr : Expr) (elseExpr : Option Expr)
  | matchE (scrutinee : Expr) (arms : List MatchArm)
  | closure (params : List ClosureParam) (returnType : Option TypeNode)
      (body : Expr)
  | construct (typePath : Option Expr) (fields : List FieldInit)
  | structLit (typeName : String) (fields : List FieldInit)
  | tuple (elements : List Expr)
  | arrayE (elements : List Expr)
  | range (start : Option Expr) (stop : Option Expr) (inclusive : Bool)
  | refE (operand : Expr)
  | mutRef (operand : Expr)
  | move (operand : Expr)
  | await (operand : Expr)
  | tryE (operand : Expr)
  | assign (target value : Expr)
  | compoundAssign (op : CompoundAssignOp) (target value : Expr)

inductive MatchArm where
  | mk (pattern : Pattern) (guard : Option Expr) (body : Expr)

inductive FieldInit where
  | mk (name : String) (value : Expr)

inductive Pattern where
  | wildcard
  | identP (name : String) (isMutable : Bool)
  | literal (lit : Expr)
  | tupleP (elements : List Pattern)
  | constructor (path : List String) (positionalFields : List Pattern)
      (namedFields : List NamedFieldPat)
  | orP (alternatives : List Pattern)

inductive NamedFieldPat where
  | mk (name : String) (pattern : Pattern)

inductive Stmt where
  | letS (name : String) (type : Option TypeNode) (initializer : Option Expr)
      (isMutable : Bool)
  | constS (name : String) (type : Option TypeNode) (value : Option Expr)
  | returnS (value : Option Expr)
  | ifS (condition : Expr) (thenBranch : Stmt) (elseBranch : Option Stmt)
  | matchS (scrutinee : Expr) (arms : List MatchArm)
  | forS (varName : String) (varType : Option TypeNode) (iterable : Expr)
      (body : Stmt)
  | whileS (condition : Expr) (body : Stmt)
  | loopS (body : Stmt)
  | breakS
  | continueS
  | blockS (statements : List Stmt)
  | exprS (expression : Expr)

end

/-- MatchArm body accessor. -/
def MatchArm.body : MatchArm → Expr
  | .mk _ _ b => b

/-- MatchArm guard accessor. -/
def MatchArm.guard : MatchArm → Option Expr
  | .mk _ g _ => g

/-- FieldInit value accessor. -/
def FieldInit.value : FieldInit → Expr
  | .mk _ v => v

/-! ## Declaration AST nodes (AST/Decl.h) -/

inductive Visibility where
  | privateV | publicV
  deriving DecidableEq, Repr

/-- GenericParam: generic type parameter of a declaration. -/
structure GenericParam where
  name : String
  traitBounds : List String := []
  lifetime : Option String := none
  deriving DecidableEq, Repr

/-- FuncParam: function parameter. -/
structure FuncParam where
  name : String
  type : Option TypeNode
  isMutable : Bool := false
  isSelf : Bool := false
  isRef : Bool := false
  isMutRefP : Bool := false

/-- FieldDecl: struct or class field. -/
structure FieldDecl where
  name : String
  type : Option TypeNode
  visibility : Visibility := .publicV

inductive VariantKind where
  | unit | tupleVK | structVK
  deriving DecidableEq, Repr

/-- EnumVariant: one variant of an enum declaration. -/
structure EnumVariant where
  name : String
  variantKind : VariantKind := .unit
  tupleFields : List (Option TypeNode) := []
  structFields : List FieldDecl := []

/-- FuncDecl fields (used directly and inside class/trait/impl methods). -/
structure FuncData where
  name : String
  genericParams : List GenericParam := []
  params : List FuncParam := []
  returnType : Option TypeNode := none
  body : Option (List Stmt) := none
  isAsync : Bool := false
  visibility : Visibility := .privateV

inductive Decl where
  | moduleD (path : List String)
  | importD (path : List String) (aliasName : Option String)
  | funcD (d : FuncData)
  | structD (name : String) (genericParams : List GenericParam)
      (fields : List FieldDecl) (visibility : Visibility)
  | classD (name : String) (genericParams : List GenericParam)
      (fields : List FieldDecl) (methods : List FuncData)
      (visibility : Visibility)
  | enumD (name : String) (genericParams : List GenericParam)
      (variants : List EnumVariant) (visibility : Visibility)
  | traitD (name : String) (genericParams : List GenericParam)
      (superTraits : List String) (methods : List FuncData)
      (visibility : Visibility)
  | implD (targetType : Option TypeNode) (traitName : Option String)
      (genericParams : List GenericParam) (methods : List FuncData)
  | typeAliasD (name : String) (genericParams : List GenericParam)
      (aliasedType : Option TypeNode) (visibility : Visibility)

/-- Module: top-level translation unit (AST/AST.h). -/
structure Module where
  name : String := ""
  imports : List String := []
  declarations : List Decl := []

/-! ## Symbols and scopes (Sema/NameResolution.h)

The C++ Scope is a tree node with a parent pointer; the resolver keeps a
currentScope_ pointer, lookup walks parent links, and enter/exitScope move
down to a fresh child / back up to the parent.  Only the chain from the
current scope to the root is ever observable through lookup and insert, so
a scope chain is modelled as a list of frames, head = currentScope_, last
element = the global scope.  The children vector only keeps scopes alive
in C++ and is not modelled. -/

inductive SymbolKind where
  | varS | funcS | structS | classS | enumS | traitS | typeAliasS
  | genericParamS | moduleS | enumVariantS
  deriving DecidableEq, Repr

/-- Symbol record (NameResolution.h).  The resolver never writes typeName,
paramTypes, returnType or isAsync; they keep their defaults. -/
structure Symbol where
  kind : SymbolKind
  name : String := ""
  qualifiedName : String := ""
  visibility : Visibility := .publicV
  isMutable : Bool := false
  isConst : Bool := false
  typeName : String := ""
  paramTypes : List String := []
  returnType : String := ""
  isAsync : Bool := false
  genericParams : List String := []
  deriving DecidableEq, Repr

/-- One scope's symbol map (insertion order preserved). -/
abbrev Frame := List (String × Symbol)

/-- symbols.find in a single scope. -/
def frameLookup (f : Frame) (n : String) : Option Symbol :=
  (f.find? (fun p => p.1 = n)).map (fun p => p.2)

/-- Scope::lookup - this scope, then parent scopes. -/
def scopesLookup : List Frame → String → Option Symbol
  | [], _ => none
  | f :: rest, n =>
    match frameLookup f n with
    | some s => some s
    | none => scopesLookup rest n

/-- Scope::insert - emplace succeeds only if the name is new in this scope. -/
def frameInsert (f : Frame) (n : String) (s : Symbol) : Bool × Frame :=
  if (frameLookup f n).isSome then (false, f) else (true, f ++ [(n, s)])

/-- Name resolver state: scope chain plus accumulated diagnostics. -/
structure RState where
  scopes : List Frame
  errs : List Diag
  deriving Repr

/-- Insert into currentScope_ and emit diag d on failure (registerDecl and
let/const statements check the insert result). -/
def insertCurrent (st : RState) (n : String) (sym : Symbol) (d : Diag) :
    RState :=
  match st.scopes with
  | [] => st
  | f :: rest =>
    let r := frameInsert f n sym
    { scopes := r.2 :: rest, errs := st.errs ++ if r.1 then [] else [d] }

/-- Insert into currentScope_ ignoring the result (parameters, generic
parameters, for-loop variables, closure parameters, enum variants). -/
def insertQuiet (st : RState) (n : String) (sym : Symbol) : RState :=
  match st.scopes with
  | [] => st
  | f :: rest => { st with scopes := (frameInsert f n sym).2 :: rest }

/-- NameResolver::enterScope - make a fresh child the current scope. -/
def enterScope (st : RState) : RState :=
  { st with scopes := [] :: st.scopes }

/-- NameResolver::exitScope - back to the parent scope. -/
def exitScope (st : RState) : RState :=
  { st with scopes := st.scopes.tail }

/-! ## Name resolution walk (Sema/NameResolution.cpp) -/

mutual

/-- NameResolver::resolveExpr. -/
def resolveExpr : Expr → RState → RState
  | .ident n, st =>
    match scopesLookup st.scopes n with
    | some _ => st
    | none => { st with errs := st.errs ++ [.undeclaredIdent n] }
  | .binary _ l r, st => resolveExpr r (resolveExpr l st)
  | .unary _ e, st => resolveExpr e st
  | .call callee args, st => resolveExprList args (resolveExpr callee st)
  | .methodCall obj _ args, st => resolveExprList args (resolveExpr obj st)
  | .memberAccess obj _, st => resolveExpr obj st
  | .indexE obj ix, st => resolveExpr ix (resolveExpr obj st)
  | .blockE stmts finalExpr, st =>
    exitScope (resolveOptExpr finalExpr (resolveStmtList stmts (enterScope st)))
  | .ifE c t e, st => resolveOptExpr e (resolveExpr t (resolveExpr c st))
  | .closure params _ body, st =>
    exitScope (resolveExpr body (closureParamsInsert params (enterScope st)))
  | .assign t v, st => resolveExpr v (resolveExpr t st)
  | .compoundAssign _ t v, st => resolveExpr v (resolveExpr t st)
  | .cast e _, st => resolveExpr e st
  | .tuple es, st => resolveExprList es st
  | .arrayE es, st => resolveExprList es st
  | .refE e, st => resolveExpr e st
  | .mutRef e, st => resolveExpr e st
  | .move e, st => resolveExpr e st
  | .await e, st => resolveExpr e st
  | .tryE e, st => resolveExpr e st
  | .range s e _, st => resolveOptExpr e (resolveOptExpr s st)
  | .construct tp fields, st => resolveFieldInits fields (resolveOptExpr tp st)
  | .matchE scrut arms, st => resolveArms arms (resolveExpr scrut st)
  -- default: literals, Path, StructLiteral - no resolution needed
  | .intLit _, st => st
  | .floatLit _, st => st
  | .stringLit _, st => st
  | .charLit _, st => st
  | .boolLit _, st => st
  | .path _, st => st
  | .structLit _ _, st => st

def resolveOptExpr : Option Expr → RState → RState
  | none, st => st
  | some e, st => resolveExpr e st

def resolveExprList : List Expr → RState → RState
  | [], st => st
  | e :: es, st => resolveExprList es (resolveExpr e st)

/-- Match-expression arms: enterScope("match_arm"); body; exitScope.
The pattern and the optional guard are not resolved by the source. -/
def resolveArms : List MatchArm → RState → RState
  | [], st => st
  | .mk _ _ body :: rest, st =>
    resolveArms rest (exitScope (resolveExpr body (enterScope st)))

def resolveFieldInits : List FieldInit → RState → RState
  | [], st => st
  | .mk _ v :: rest, st => resolveFieldInits rest (resolveExpr v st)

/-- Closure parameters are inserted into the fresh closure scope. -/
def closureParamsInsert : List ClosureParam → RState → RState
  | [], st => st
  | p :: ps, st =>
    closureParamsInsert ps
      (insertQuiet st p.name { kind := .varS, name := p.name })

/-- NameResolver::resolveStmt. -/
def resolveStmt : Stmt → RState → RState
  | .letS name _ initializer isMut, st =>
    -- resolve initialiser first (before adding to scope)
    let st1 := resolveOptExpr initializer st
    insertCurrent st1 name
      { kind := .varS, name := name, isMutable := isMut }
      (.redefinitionVariable name)
  | .constS name _ v, st =>
    let st1 := resolveOptExpr v st
    insertCurrent st1 name
      { kind := .varS, name := name, isMutable := false }
      (.redefinitionConstant name)
  | .returnS v, st => resolveOptExpr v st
  | .ifS c t e, st => resolveOptStmt e (resolveStmt t (resolveExpr c st))
  | .forS varName _ iter body, st =>
    let st1 := enterScope (resolveExpr iter st)
    let st2 := insertQuiet st1 varName { kind := .varS, name := varName }
    exitScope (resolveStmt body st2)
  | .whileS c b, st => resolveStmt b (resolveExpr c st)
  | .loopS b, st => resolveStmt b st
  | .blockS ss, st => exitScope (resolveStmtList ss (enterScope st))
  | .exprS e, st => resolveExpr e st
  | .matchS scrut _arms, st =>
    -- source: resolves the scrutinee only; "Match arms need pattern scope
    -- resolution" is an unimplemented comment, the arms are not visited
    resolveExpr scrut st
  | .breakS, st => st
  | .continueS, st => st

def resolveOptStmt : Option Stmt → RState → RState
  | none, st => st
  | some s, st => resolveStmt s st

def resolveStmtList : List Stmt → RState → RState
  | [], st => st
  | s :: ss, st => resolveStmtList ss (resolveStmt s st)

end

/-- NameResolver::registerDecl (pass 1 hoisting).  Module, Import and Impl
declarations do not register names. -/
def registerDecl (d : Decl) (st : RState) : RState :=
  match d with
  | .funcD fd =>
    insertCurrent st fd.name
      { kind := .funcS, name := fd.name, visibility := fd.visibility }
      (.redefinition fd.name)
  | .structD name _ _ vis =>
    insertCurrent st name
      { kind := .structS, name := name, visibility := vis }
      (.redefinition name)
  | .classD name _ _ _ vis =>
    insertCurrent st name
      { kind := .classS, name := name, visibility := vis }
      (.redefinition name)
  | .enumD name _ _ vis =>
    insertCurrent st name
      { kind := .enumS, name := name, visibility := vis }
      (.redefinition name)
  | .traitD name _ _ _ vis =>
    insertCurrent st name
      { kind := .traitS, name := name, visibility := vis }
      (.redefinition name)
  | .typeAliasD name _ _ vis =>
    insertCurrent st name
      { kind := .typeAliasS, name := name, visibility := vis }
      (.redefinition name)
  | _ => st

def registerDecls : List Decl → RState → RState
  | [], st => st
  | d :: ds, st => registerDecls ds (registerDecl d st)

/-- Generic parameters of a declaration, inserted quietly. -/
def genericParamsInsert : List GenericParam → RState → RState
  | [], st => st
  | g :: gs, st =>
    genericParamsInsert gs
      (insertQuiet st g.name { kind := .genericParamS, name := g.name })

/-- Function value parameters, inserted quietly. -/
def funcParamsInsert : List FuncParam → RState → RState
  | [], st => st
  | p :: ps, st =>
    funcParamsInsert ps
      (insertQuiet st p.name { kind := .varS, name := p.name })

/-- NameResolver::resolveFunc. -/
def resolveFunc (fd : FuncData) (st : RState) : RState :=
  let st1 := enterScope st
  let st2 := genericParamsInsert fd.genericParams st1
  let st3 := funcParamsInsert fd.params st2
  let st4 := match fd.body with
    | some stmts => resolveStmtList stmts st3
    | none => st3
  exitScope st4

def resolveMethods : List FuncData → RState → RState
  | [], st => st
  | m :: ms, st => resolveMethods ms (resolveFunc m st)

/-- NameResolver::resolveEnum - variant symbols go into the enclosing
scope, keyed by the bare variant name, with a qualified symbol name. -/
def resolveEnumVariants (enumName : String) :
    List EnumVariant → RState → RState
  | [], st => st
  | v :: vs, st =>
    resolveEnumVariants enumName vs
      (insertQuiet st v.name
        { kind := .enumVariantS, name := enumName ++ "::" ++ v.name })

/-- Trait methods are registered (with redefinition diagnostics) inside the
trait scope via registerDecl. -/
def registerTraitMethods : List FuncData → RState → RState
  | [], st => st
  | m :: ms, st => registerTraitMethods ms (registerDecl (.funcD m) st)

/-- NameResolver::resolveDecl (pass 2). -/
def resolveDecl (d : Decl) (st : RState) : RState :=
  match d with
  | .moduleD _ => st
  | .importD _ _ => st
  | .funcD fd => resolveFunc fd st
  | .structD _ gens _ _ =>
    exitScope (genericParamsInsert gens (enterScope st))
  | .classD _ gens _ methods _ =>
    exitScope (resolveMethods methods (genericParamsInsert gens (enterScope st)))
  | .enumD name _ variants _ => resolveEnumVariants name variants st
  | .traitD _ _ _ methods _ =>
    exitScope (registerTraitMethods methods (enterScope st))
  | .implD _ _ _ methods => exitScope (resolveMethods methods (enterScope st))
  | .typeAliasD _ _ _ _ => st

def resolveDecls : List Decl → RState → RState
  | [], st => st
  | d :: ds, st => resolveDecls ds (resolveDecl d st)

/-- NameResolver::resolve - two passes over the module. -/
def resolveModule (m : Module) (st : RState) : RState :=
  resolveDecls m.declarations (registerDecls m.declarations st)

/-- Resolver state at the start of Sema::analyze: one empty global scope
(the Scope globalScope_ member constructed as Scope("global")). -/
def initRState (diags : List Diag) : RState :=
  { scopes := [[]], errs := diags }

/-! ## Specification-side name-use checking

Written from the specification text, independently of the resolver code:
"Every Identifier expression must resolve to some symbol visible in the
current or an ancestor scope", with the lexical scoping rules of spec 4.4:
a new scope is entered for function body, for-loop, closure, block
statement, block expression and match arm; let/const insert into the
current scope after the initializer is checked; enum variants go into the
enclosing scope; pass 1 hoists top-level declaration names into the module
scope.  The checker returns the list of identifier names that fail to
resolve.  The full flag controls the three positions the original claim
covers but the resolver never visits: the arms of match statements, the
guards of match-expression arms, and the field values of struct-literal
expressions (full = true checks them, full = false skips them).
Patterns contain no Identifier expressions (literal patterns are
int/string/bool literals per the parser), so they contribute nothing. -/

/-- An environment is the list of name sets of the current scope and its
ancestors, innermost first. -/
abbrev SpecEnv := List (List String)

/-- A name resolves when some scope on the chain declares it. -/
def specLookup (env : SpecEnv) (n : String) : Bool :=
  env.any (fun frame => frame.contains n)

/-- Declare a name in one scope (redeclaration leaves it unchanged). -/
def specFrameAdd (frame : List String) (n : String) : List String :=
  if frame.contains n then frame else frame ++ [n]

/-- Declare a name in the current (innermost) scope. -/
def specAdd (env : SpecEnv) (n : String) : SpecEnv :=
  match env with
  | [] => []
  | f :: rest => specFrameAdd f n :: rest

mutual

/-- Unresolved identifier names of an expression. -/
def specExpr (full : Bool) : Expr → SpecEnv → List String
  | .ident n, env => if specLookup env n then [] else [n]
  | .binary _ l r, env => specExpr full l env ++ specExpr full r env
  | .unary _ e, env => specExpr full e env
  | .call callee args, env =>
    specExpr full callee env ++ specExprList full args env
  | .methodCall obj _ args, env =>
    specExpr full obj env ++ specExprList full args env
  | .memberAccess obj _, env => specExpr full obj env
  | .indexE obj ix, env => specExpr full obj env ++ specExpr full ix env
  | .blockE stmts finalExpr, env =>
    -- block expression opens a scope
    (specStmtList full stmts ([] :: env)).2 ++
      specOptExpr full finalExpr (specStmtList full stmts ([] :: env)).1
  | .ifE c t e, env =>
    specExpr full c env ++ specExpr full t env ++ specOptExpr full e env
  | .closure params _ body, env =>
    -- closure opens a scope binding its parameters
    specExpr full body (closureNames params [] :: env)
  | .assign t v, env => specExpr full t env ++ specExpr full v env
  | .compoundAssign _ t v, env => specExpr full t env ++ specExpr full v env
  | .cast e _, env => specExpr full e env
  | .tuple es, env => specExprList full es env
  | .arrayE es, env => specExprList full es env
  | .refE e, env => specExpr full e env
  | .mutRef e, env => specExpr full e env
  | .move e, env => specExpr full e env
  | .await e, env => specExpr full e env
  | .tryE e, env => specExpr full e env
  | .range s e _, env => specOptExpr full s env ++ specOptExpr full e env
  | .construct tp fields, env =>
    specOptExpr full tp env ++ specFieldInits full fields env
  | .structLit _ fields, env =>
    if full then specFieldInits full fields env else []
  | .matchE scrut arms, env =>
    specExpr full scrut env ++ specArms full arms env
  | .intLit _, _ => []
  | .floatLit _, _ => []
  | .stringLit _, _ => []
  | .charLit _, _ => []
  | .boolLit _, _ => []
  | .path _, _ => []

def specOptExpr (full : Bool) : Option Expr → SpecEnv → List String
  | none, _ => []
  | some e, env => specExpr full e env

def specExprList (full : Bool) : List Expr → SpecEnv → List String
  | [], _ => []
  | e :: es, env => specExpr full e env ++ specExprList full es env

/-- Match arms each open a scope; guards are checked only when full. -/
def specArms (full : Bool) : List MatchArm → SpecEnv → List String
  | [], _ => []
  | .mk _ g body :: rest, env =>
    (if full then specOptExpr full g ([] :: env) else []) ++
      specExpr full body ([] :: env) ++ specArms full rest env

def specFieldInits (full : Bool) : List FieldInit → SpecEnv → List String
  | [], _ => []
  | .mk _ v :: rest, env => specExpr full v env ++ specFieldInits full rest env

def closureNames : List ClosureParam → List String → List String
  | [], acc => acc
  | p :: ps, acc => closureNames ps (specFrameAdd acc p.name)

/-- Environment after a statement, and its unresolved identifier names. -/
def specStmt (full : Bool) : Stmt → SpecEnv → SpecEnv × List String
  | .letS name _ initializer _, env =>
    (specAdd env name, specOptExpr full initializer env)
  | .constS name _ v, env => (specAdd env name, specOptExpr full v env)
  | .returnS v, env => (env, specOptExpr full v env)
  | .ifS c t e, env =>
    (((specOptStmt full e (specStmt full t env).1).1),
      specExpr full c env ++ (specStmt full t env).2 ++
        (specOptStmt full e (specStmt full t env).1).2)
  | .forS varName _ iter body, env =>
    -- for-loop opens a scope binding the loop variable
    (env, specExpr full iter env ++
      (specStmt full body (specFrameAdd [] varName :: env)).2)
  | .whileS c b, env =>
    ((specStmt full b env).1, specExpr full c env ++ (specStmt full b env).2)
  | .loopS b, env => specStmt full b env
  | .blockS ss, env => (env, (specStmtList full ss ([] :: env)).2)
  | .exprS e, env => (env, specExpr full e env)
  | .matchS scrut arms, env =>
    (env, specExpr full scrut env ++
      if full then specArms full arms env else [])
  | .breakS, env => (env, [])
  | .continueS, env => (env, [])

def specOptStmt (full : Bool) : Option Stmt → SpecEnv → SpecEnv × List String
  | none, env => (env, [])
  | some s, env => specStmt full s env

def specStmtList (full : Bool) : List Stmt → SpecEnv → SpecEnv × List String
  | [], env => (env, [])
  | s :: ss, env =>
    ((specStmtList full ss (specStmt full s env).1).1,
      (specStmt full s env).2 ++ (specStmtList full ss (specStmt full s env).1).2)

end

/-- Generic parameter names, declared in order. -/
def specGenericNames : List GenericParam → List String → List String
  | [], acc => acc
  | g :: gs, acc => specGenericNames gs (specFrameAdd acc g.name)

/-- Function parameter names, declared in order. -/
def specParamNames : List FuncParam → List String → List String
  | [], acc => acc
  | p :: ps, acc => specParamNames ps (specFrameAdd acc p.name)

/-- Unresolved names of a function: body checked in a scope binding the
generic and value parameters. -/
def specFunc (full : Bool) (fd : FuncData) (env : SpecEnv) : List String :=
  match fd.body with
  | some stmts =>
    (specStmtList full stmts
      (specParamNames fd.params (specGenericNames fd.genericParams []) :: env)).2
  | none => []

def specMethods (full : Bool) : List FuncData → SpecEnv → List String
  | [], _ => []
  | m :: ms, env => specFunc full m env ++ specMethods full ms env

/-- Enum variants are declared in the enclosing scope. -/
def variantNamesAdd (enumName : String) :
    List EnumVariant → SpecEnv → SpecEnv
  | [], env => env
  | v :: vs, env => variantNamesAdd enumName vs (specAdd env v.name)

/-- Pass 2 environment effect and unresolved names of a declaration:
only enum variant registration changes the current scope. -/
def specDecl (full : Bool) : Decl → SpecEnv → SpecEnv × List String
  | .funcD fd, env => (env, specFunc full fd env)
  | .classD _ gens _ methods _, env =>
    (env, specMethods full methods (specGenericNames gens [] :: env))
  | .enumD name _ variants _, env =>
    (variantNamesAdd name variants env, [])
  | .implD _ _ _ methods, env => (env, specMethods full methods ([] :: env))
  | _, env => (env, [])

def specDecls (full : Bool) : List Decl → SpecEnv → List String
  | [], _ => []
  | d :: ds, env =>
    (specDecl full d env).2 ++ specDecls full ds (specDecl full d env).1

/-- Pass 1: names hoisted into the module scope. -/
def hoistedName : Decl → Option String
  | .funcD fd => some fd.name
  | .structD name _ _ _ => some name
  | .classD name _ _ _ _ => some name
  | .enumD name _ _ _ => some name
  | .traitD name _ _ _ _ => some name
  | .typeAliasD name _ _ _ => some name
  | _ => none

def hoistNames : List Decl → List String → List String
  | [], acc => acc
  | d :: ds, acc =>
    hoistNames ds (match hoistedName d with
      | some n => specFrameAdd acc n
      | none => acc)

/-- Unresolved identifier names of a whole module: hoist, then walk. -/
def specModule (full : Bool) (m : Module) : List String :=
  specDecls full m.declarations [hoistNames m.declarations []]

/-! ## Type checker (Sema/Sema.cpp, TypeChecker part) -/

/-- TypeChecker::registerBuiltinTypes - primitive and standard types. -/
def builtinTypes : List String :=
  ["Int8", "Int16", "Int32", "Int64",
   "UInt8", "UInt16", "UInt32", "UInt64",
   "Float32", "Float64", "Bool", "Char", "String", "Void",
   "Option", "Result", "Vec", "Map", "Set", "Box", "Rc", "Arc",
   "Mutex", "Channel", "Future"]

/-- TypeChecker::typeToString - textual form of a type reference. -/
def typeToString : TypeNode → String
  | .named path => String.intercalate "::" path
  | .generic basePath _ => String.intercalate "::" basePath
  | .reference inner => "&" ++ typeToString inner
  | .mutRefT inner => "&mut " ++ typeToString inner
  | .arrayT elementType _ => "[" ++ typeToString elementType ++ "]"
  | .optionT => "Option"
  | .resultT => "Result"
  | .tupleT _ => "(tuple)"
  | .functionT _ _ => "(func)"
  | .inferred => "<unknown>"

/-- TypeChecker::typesCompatible - assignability of two type strings. -/
def typesCompatible (expected actual : String) : Bool :=
  if expected = actual then true
  else if actual = "Int64" &&
      (expected = "Int8" || expected = "Int16" || expected = "Int32" ||
       expected = "UInt8" || expected = "UInt16" || expected = "UInt32" ||
       expected = "UInt64") then true
  else if actual = "Float64" && expected = "Float32" then true
  else false

/-- Type checker state: the known-types set, the enclosing function's
declared return type, and the accumulated diagnostics.  The scope the
checker reads (the root scope after resolution) is passed separately. -/
structure TCState where
  knownTypes : List String
  currentReturnType : String := ""
  errs : List Diag := []

/-- TypeChecker::isValidType. -/
def isValidType (tc : TCState) (typeName : String) : Bool :=
  tc.knownTypes.contains typeName

def tcEmit (tc : TCState) (d : Diag) : TCState :=
  { tc with errs := tc.errs ++ [d] }

mutual

/-- TypeChecker::checkExpr - returns the inferred type name ("" unknown). -/
def checkExpr (scope : Frame) : Expr → TCState → String × TCState
  | .intLit _, tc => ("Int64", tc)
  | .floatLit _, tc => ("Float64", tc)
  | .stringLit _, tc => ("String", tc)
  | .charLit _, tc => ("Char", tc)
  | .boolLit _, tc => ("Bool", tc)
  | .ident n, tc =>
    -- checkIdentExpr: declared type from the symbol table if non-empty
    (match frameLookup scope n with
      | some sym => if sym.typeName ≠ "" then sym.typeName else ""
      | none => "", tc)
  | .binary op l r, tc =>
    let lr := checkExpr scope l tc
    let rr := checkExpr scope r lr.2
    match op with
    | .eq | .ne | .lt | .le | .gt | .ge | .and | .or => ("Bool", rr.2)
    | _ =>
      let tc2 :=
        if lr.1 ≠ "" && rr.1 ≠ "" && !typesCompatible lr.1 rr.1 then
          tcEmit rr.2 (.binaryTypeMismatch lr.1 rr.1)
        else rr.2
      (if lr.1 = "" then rr.1 else lr.1, tc2)
  | .call callee args, tc =>
    ("", checkArgs scope args (checkExpr scope callee tc).2)
  | _, tc => ("", tc)

def checkArgs (scope : Frame) : List Expr → TCState → TCState
  | [], tc => tc
  | e :: es, tc => checkArgs scope es (checkExpr scope e tc).2

end

mutual

/-- TypeChecker::checkStmt. -/
def checkStmt (scope : Frame) : Stmt → TCState → TCState
  | .letS name type initializer _, tc =>
    -- checkLetStmt: Flux requires explicit type annotations
    (match type with
    | some t =>
      let declType := typeToString t
      let tc1 :=
        if !isValidType tc declType then
          tcEmit tc (.unknownLetType declType)
        else tc
      match initializer with
      | some init =>
        let ir := checkExpr scope init tc1
        if ir.1 ≠ "" && !typesCompatible declType ir.1 then
          tcEmit ir.2 (.typeMismatch declType ir.1)
        else ir.2
      | none => tc1
    | none => tcEmit tc (.letNeedsTypeAnn name))
  | .returnS value, tc =>
    (match value with
    | some v =>
      let rr := checkExpr scope v tc
      if tc.currentReturnType ≠ "" && rr.1 ≠ "" &&
          !typesCompatible tc.currentReturnType rr.1 then
        tcEmit rr.2 (.returnTypeMismatch tc.currentReturnType rr.1)
      else rr.2
    | none =>
      if tc.currentReturnType ≠ "" && tc.currentReturnType ≠ "Void" then
        tcEmit tc .nonVoidReturn
      else tc)
  | .ifS c t e, tc =>
    let cr := checkExpr scope c tc
    let tc1 :=
      if cr.1 ≠ "" && cr.1 ≠ "Bool" then
        tcEmit cr.2 (.conditionNotBool cr.1)
      else cr.2
    let tc2 := checkStmt scope t tc1
    (match e with
    | some eb => checkStmt scope eb tc2
    | none => tc2)
  | .forS _ _ iterable body, tc =>
    checkStmt scope body (checkExpr scope iterable tc).2
  | .whileS c b, tc =>
    let cr := checkExpr scope c tc
    let tc1 :=
      if cr.1 ≠ "" && cr.1 ≠ "Bool" then
        tcEmit cr.2 (.conditionNotBool cr.1)
      else cr.2
    checkStmt scope b tc1
  | .blockS ss, tc => checkStmtList scope ss tc
  | .exprS e, tc => (checkExpr scope e tc).2
  -- default: Const, Match, Loop, Break, Continue are not checked
  | _, tc => tc

def checkStmtList (scope : Frame) : List Stmt → TCState → TCState
  | [], tc => tc
  | st :: ss, tc => checkStmtList scope ss (checkStmt scope st tc)

end

/-- Parameter validation loop of TypeChecker::checkFuncDecl. -/
def checkParams (tc : TCState) : List FuncParam → TCState
  | [] => tc
  | p :: ps =>
    let tc1 := match p.type with
      | some t =>
        let paramType := typeToString t
        if !isValidType tc paramType then
          tcEmit tc (.unknownParamType paramType p.name)
        else tc
      | none => tcEmit tc (.paramNeedsTypeAnn p.name)
    checkParams tc1 ps

/-- TypeChecker::checkFuncDecl. -/
def checkFuncDecl (scope : Frame) (fd : FuncData) (tc : TCState) : TCState :=
  let tc1 := match fd.returnType with
    | some t =>
      let retType := typeToString t
      let tcE :=
        if !isValidType tc retType then
          tcEmit tc (.unknownReturnType retType fd.name)
        else tc
      { tcE with currentReturnType := retType }
    | none => { tc with currentReturnType := "Void" }
  let tc2 := checkParams tc1 fd.params
  let tc3 := match fd.body with
    | some stmts => checkStmtList scope stmts tc2
    | none => tc2
  { tc3 with currentReturnType := "" }

def checkMethodList (scope : Frame) : List FuncData → TCState → TCState
  | [], tc => tc
  | m :: ms, tc => checkMethodList scope ms (checkFuncDecl scope m tc)

/-- Field-type validation shared by struct and class declarations. -/
def checkFields (mk : String → String → Diag) (tc : TCState) :
    List FieldDecl → TCState
  | [] => tc
  | f :: fs =>
    let tc1 := match f.type with
      | some t =>
        let fieldType := typeToString t
        if !isValidType tc fieldType then tcEmit tc (mk fieldType f.name)
        else tc
      | none => tc
    checkFields mk tc1 fs

/-- TypeChecker::checkEnumDecl - tuple then struct fields of each variant. -/
def checkVariants (tc : TCState) : List EnumVariant → TCState
  | [] => tc
  | v :: vs =>
    let tc1 := v.tupleFields.foldl
      (fun acc ft => match ft with
        | some t =>
          let s := typeToString t
          if !isValidType acc s then
            tcEmit acc (.unknownEnumVariantType s v.name)
          else acc
        | none => acc) tc
    let tc2 := v.structFields.foldl
      (fun acc f => match f.type with
        | some t =>
          let s := typeToString t
          if !isValidType acc s then
            tcEmit acc (.unknownEnumVariantType s v.name)
          else acc
        | none => acc) tc1
    checkVariants tc2 vs

/-- TypeChecker::checkDecl. -/
def checkDecl (scope : Frame) (d : Decl) (tc : TCState) : TCState :=
  match d with
  | .funcD fd => checkFuncDecl scope fd tc
  | .structD name _ fields _ =>
    checkFields (fun t f => .unknownStructFieldType t f name) tc fields
  | .classD name _ fields methods _ =>
    checkMethodList scope methods
      (checkFields (fun t f => .unknownClassFieldType t f name) tc fields)
  | .enumD _ _ variants _ => checkVariants tc variants
  | .traitD _ _ _ methods _ => checkMethodList scope methods tc
  | .implD _ _ _ methods => checkMethodList scope methods tc
  | _ => tc

def checkDeclList (scope : Frame) : List Decl → TCState → TCState
  | [], tc => tc
  | d :: ds, tc => checkDeclList scope ds (checkDecl scope d tc)

/-- User-declared type names drawn from the root scope symbols. -/
def userTypeNames : Frame → List String
  | [] => []
  | (n, sym) :: rest =>
    if sym.kind = .structS ∨ sym.kind = .classS ∨ sym.kind = .enumS ∨
        sym.kind = .traitS ∨ sym.kind = .typeAliasS then
      n :: userTypeNames rest
    else userTypeNames rest

/-- TypeChecker::check - register user types, then check each declaration.
Returns the diagnostics list (input diagnostics plus the new ones). -/
def checkModule (m : Module) (scope : Frame) (diags : List Diag) :
    List Diag :=
  (checkDeclList scope m.declarations
    { knownTypes := builtinTypes ++ userTypeNames scope,
      errs := diags }).errs

/-! ## Sema driver (Sema/Sema.cpp) and pipeline (tools/flux/main.cpp) -/

/-- Observable outcome of Sema::analyze.  resolverRan and checkerRan
record whether each phase executed. -/
structure SemaResult where
  ok : Bool
  diags : List Diag
  resolverRan : Bool
  checkerRan : Bool
  globalScope : Frame
  deriving Repr

/-- Sema::analyze - name resolution; on new errors stop ("Name resolution
errors prevent type checking"), otherwise type checking; analysis is
successful when the error count is unchanged. -/
def analyze (m : Module) (diags0 : List Diag) : SemaResult :=
  let errorsBefore := diags0.length
  let r := resolveModule m (initRState diags0)
  let globalFrame := (r.scopes.getLast?).getD []
  if r.errs.length > errorsBefore then
    { ok := false, diags := r.errs, resolverRan := true, checkerRan := false,
      globalScope := globalFrame }
  else
    let d2 := checkModule m globalFrame r.errs
    { ok := d2.length = errorsBefore, diags := d2, resolverRan := true,
      checkerRan := true, globalScope := globalFrame }

/-- Outcome of the driver phases that follow parsing (main.cpp).  irRan
records whether phase 4 (code generation, i.e. IR emission) was reached. -/
structure DriverResult where
  semaRan : Bool
  irRan : Bool
  exitCode : Nat
  diags : List Diag
  deriving Repr

/-- main.cpp after parseModule: bail out when parsing left errors, run
Sema::analyze, bail out when it fails, then run code generation. -/
def driverAfterParse (parseDiags : List Diag) (m : Module) : DriverResult :=
  if parseDiags.length > 0 then
    { semaRan := false, irRan := false, exitCode := 1, diags := parseDiags }
  else
    let r := analyze m parseDiags
    if !r.ok then
      { semaRan := true, irRan := false, exitCode := 1, diags := r.diags }
    else
      { semaRan := true, irRan := true, exitCode := 0, diags := r.diags }

/-! ## LLVM IR model (CodeGen/TypeMapper.cpp, CodeGen/IREmitter.cpp)

The emitter is written against the LLVM C++ API.  Types are uniqued by
LLVM, so pointer equality of llvm::Type* is structural equality here; the
repository builds against LLVM 18, whose pointers are opaque, so every
pointer type is the single ptr type.  llvm::Value* results are modelled as
a type together with enough provenance to identify the value.  A basic
block is its instruction list; BasicBlock::getTerminator returns the last
instruction when it is a terminator.  llvm::verifyFunction is an external
library facility and is not modelled (it is assumed to pass). -/

inductive LLVMType where
  | intT (bits : Nat)
  | floatT
  | doubleT
  | ptr
  | voidT
  | structT (fields : List LLVMType)
  | arrayLT (elem : LLVMType) (size : Nat)

mutual

/-- Structural type equality (pointer equality of uniqued llvm::Type*). -/
def LLVMType.beq : LLVMType → LLVMType → Bool
  | .intT a, .intT b => a == b
  | .floatT, .floatT => true
  | .doubleT, .doubleT => true
  | .ptr, .ptr => true
  | .voidT, .voidT => true
  | .structT fs, .structT gs => LLVMType.beqList fs gs
  | .arrayLT e n, .arrayLT f m => LLVMType.beq e f && n == m
  | _, _ => false

def LLVMType.beqList : List LLVMType → List LLVMType → Bool
  | [], [] => true
  | x :: xs, y :: ys => LLVMType.beq x y && LLVMType.beqList xs ys
  | _, _ => false

end

def LLVMType.isVoidTy : LLVMType → Bool
  | .voidT => true
  | _ => false

def LLVMType.isIntegerTy : LLVMType → Bool
  | .intT _ => true
  | _ => false

def LLVMType.isFloatingPointTy : LLVMType → Bool
  | .floatT => true
  | .doubleT => true
  | _ => false

def LLVMType.getIntegerBitWidth : LLVMType → Nat
  | .intT b => b
  | _ => 0

/-- TypeMapper::getBuiltinType. -/
def getBuiltinType : String → Option LLVMType
  | "Int8" => some (.intT 8)
  | "Int16" => some (.intT 16)
  | "Int32" => some (.intT 32)
  | "Int64" => some (.intT 64)
  | "UInt8" => some (.intT 8)
  | "UInt16" => some (.intT 16)
  | "UInt32" => some (.intT 32)
  | "UInt64" => some (.intT 64)
  | "Float32" => some .floatT
  | "Float64" => some .doubleT
  | "Bool" => some (.intT 1)
  | "Char" => some (.intT 32)
  | "String" => some .ptr
  | "Void" => some .voidT
  | _ => none

/-- Lowering of a NamedType path: single-segment builtin names map to
their builtin type, everything else to an opaque pointer. -/
def mapNamedPath : List String → LLVMType
  | [single] => (getBuiltinType single).getD .ptr
  | _ => .ptr

mutual

/-- TypeMapper::mapType - lower a Flux type reference to an LLVM type. -/
def mapType : TypeNode → LLVMType
  | .named path => mapNamedPath path
  | .generic basePath _ => mapNamedPath basePath
  | .reference _ => .ptr
  | .mutRefT _ => .ptr
  | .tupleT elems => .structT (mapTypeList elems)
  | .functionT _ _ => .ptr
  | .arrayT elementType (some n) => .arrayLT (mapType elementType) n
  | .arrayT _ none => .ptr
  | .optionT => .ptr
  | .resultT => .ptr
  | .inferred => .ptr

def mapTypeList : List TypeNode → List LLVMType
  | [] => []
  | t :: ts => mapType t :: mapTypeList ts

end

/-- Provenance of an llvm::Value*. -/
inductive VKind where
  | constInt (val : Int)
  | constFP (text : String)
  | nullV
  | globalStr (s : String)
  | inst (id : Nat)
  | funcRef (name : String)
  | argV (name : String)

/-- An llvm::Value* - its type plus provenance. -/
structure Value where
  ty : LLVMType
  k : VKind

/-- Instructions produced through the IRBuilder. -/
inductive Instr where
  | alloca (id : Nat) (name : String) (ty : LLVMType)
  | store (val ptrVal : Value)
  | load (id : Nat) (ty : LLVMType) (ptrVal : Value) (name : String)
  | br (dest : Nat)
  | condBr (cond : Value) (thenB elseB : Nat)
  | retV (v : Value)
  | retVoid
  | binop (id : Nat) (opcode : String) (l r : Value) (name : String)
  | cmp (id : Nat) (opcode : String) (l r : Value) (name : String)
  | sext (id : Nat) (v : Value) (ty : LLVMType)
  | truncI (id : Nat) (v : Value) (ty : LLVMType)
  | negI (id : Nat) (v : Value)
  | fnegI (id : Nat) (v : Value)
  | notI (id : Nat) (v : Value)
  | callI (id : Nat) (callee : String) (args : List Value)
  | phi (id : Nat) (ty : LLVMType) (incoming : List (Value × Nat))

def Instr.isTerminator : Instr → Bool
  | .br _ => true
  | .condBr _ _ _ => true
  | .retV _ => true
  | .retVoid => true
  | _ => false

/-- A basic block: name and instruction list. -/
structure BB where
  name : String
  instrs : List Instr

/-- BasicBlock::getTerminator - the last instruction when a terminator. -/
def BB.terminator (bb : BB) : Option Instr :=
  match bb.instrs.getLast? with
  | some i => if i.isTerminator then some i else none
  | none => none

/-- A lowered function.  external records ExternalLinkage; blockIds lists
the attached basic blocks in order (head = entry block). -/
structure IRFunc where
  name : String
  retTy : LLVMType
  paramTys : List LLVMType
  argNames : List String
  external : Bool
  blockIds : List Nat

/-- IREmitter state: the module being built, all created blocks (attached
or not), the builder insert point, a fresh-id counter, the loop context
stack (head = back of the C++ vector, i.e. the innermost loop), the
name-to-slot map, declared named struct types, and diagnostics. -/
structure EmitState where
  funcs : List IRFunc := []
  blocks : List (Nat × BB) := []
  insertPt : Nat := 0
  nextId : Nat := 0
  loopStack : List (Nat × Nat) := []
  namedValues : List (String × (Nat × LLVMType)) := []
  namedStructs : List (String × List LLVMType) := []
  diags : List Diag := []

def EmitState.getBlock (st : EmitState) (id : Nat) : BB :=
  (((st.blocks.find? (fun p => p.1 = id)).map (fun p => p.2)).getD
    { name := "", instrs := [] })

def EmitState.updateBlock (st : EmitState) (id : Nat) (f : BB → BB) :
    EmitState :=
  { st with blocks :=
      st.blocks.map (fun p => if p.1 = id then (p.1, f p.2) else p) }

/-- Append an instruction at the builder insert point. -/
def EmitState.emit (st : EmitState) (i : Instr) : EmitState :=
  st.updateBlock st.insertPt (fun bb => { bb with instrs := bb.instrs ++ [i] })

/-- Does the insert block currently lack a terminator? -/
def EmitState.noTerminator (st : EmitState) : Bool :=
  ((st.getBlock st.insertPt).terminator).isNone

def EmitState.fresh (st : EmitState) : Nat × EmitState :=
  (st.nextId, { st with nextId := st.nextId + 1 })

/-- Modify the function currently being emitted (the last one created). -/
def EmitState.modifyLastFunc (st : EmitState) (f : IRFunc → IRFunc) :
    EmitState :=
  match st.funcs.getLast? with
  | none => st
  | some fn => { st with funcs := st.funcs.dropLast ++ [f fn] }

/-- func->insert(func->end(), bb) - attach an existing block. -/
def EmitState.attachBlock (st : EmitState) (id : Nat) : EmitState :=
  st.modifyLastFunc (fun fn => { fn with blockIds := fn.blockIds ++ [id] })

/-- BasicBlock::Create - new block, attached to the current function when
attach is set. -/
def EmitState.newBlock (st : EmitState) (name : String) (attach : Bool) :
    Nat × EmitState :=
  let r := st.fresh
  let st1 := { r.2 with blocks := r.2.blocks ++ [(r.1, { name := name, instrs := [] })] }
  (r.1, if attach then st1.attachBlock r.1 else st1)

def EmitState.setInsertPoint (st : EmitState) (id : Nat) : EmitState :=
  { st with insertPt := id }

/-- Module::getFunction. -/
def EmitState.getFunction (st : EmitState) (n : String) : Option IRFunc :=
  st.funcs.find? (fun f => f.name = n)

/-- IREmitter::createEntryBlockAlloca - alloca inserted at the beginning
of the entry block of the current function; returns the slot id. -/
def createEntryBlockAlloca (st : EmitState) (name : String)
    (ty : LLVMType) : Nat × EmitState :=
  let r := st.fresh
  let entry := (((st.funcs.getLast?).map (fun f => f.blockIds)).getD []).headD 0
  (r.1, r.2.updateBlock entry
    (fun bb => { bb with instrs := .alloca r.1 name ty :: bb.instrs }))

/-- namedValues_[name] = slot (std::unordered_map assignment overwrites). -/
def EmitState.setNamed (st : EmitState) (n : String) (slot : Nat × LLVMType) :
    EmitState :=
  { st with namedValues := (n, slot) :: st.namedValues }

def EmitState.lookupNamed (st : EmitState) (n : String) :
    Option (Nat × LLVMType) :=
  ((st.namedValues.find? (fun p => p.1 = n)).map (fun p => p.2))

/-! ## IR emission (CodeGen/IREmitter.cpp) -/

/-- Integer coercion of IREmitter::emitBinaryExpr: widen the narrower side
with a sign extend when both operands are integers of different widths. -/
def coerceIntPair (st : EmitState) (l r : Value) :
    Value × Value × EmitState :=
  if l.ty.isIntegerTy && r.ty.isIntegerTy && !(LLVMType.beq l.ty r.ty) then
    if l.ty.getIntegerBitWidth > r.ty.getIntegerBitWidth then
      let f := st.fresh
      (l, { ty := l.ty, k := .inst f.1 }, f.2.emit (.sext f.1 r l.ty))
    else
      let f := st.fresh
      ({ ty := r.ty, k := .inst f.1 }, r, f.2.emit (.sext f.1 l r.ty))
  else (l, r, st)

/-- Emit one binary operation on already-coerced operands (the switch of
IREmitter::emitBinaryExpr); comparison results are i1. -/
def emitBinopInstr (st : EmitState) (op : BinaryOp) (l r : Value) :
    Option Value × EmitState :=
  let isFloat := l.ty.isFloatingPointTy
  let arith := fun (fop iop nm : String) =>
    let f := st.fresh
    (some { ty := l.ty, k := VKind.inst f.1 },
      f.2.emit (.binop f.1 (if isFloat then fop else iop) l r nm))
  let cmpOp := fun (fop iop nm : String) =>
    let f := st.fresh
    (some { ty := LLVMType.intT 1, k := VKind.inst f.1 },
      f.2.emit (.cmp f.1 (if isFloat then fop else iop) l r nm))
  let bitop := fun (iop nm : String) =>
    let f := st.fresh
    (some { ty := l.ty, k := VKind.inst f.1 }, f.2.emit (.binop f.1 iop l r nm))
  match op with
  | .add => arith "fadd" "add" "addtmp"
  | .sub => arith "fsub" "sub" "subtmp"
  | .mul => arith "fmul" "mul" "multmp"
  | .div => arith "fdiv" "sdiv" "divtmp"
  | .mod => arith "frem" "srem" "modtmp"
  | .eq => cmpOp "fcmp oeq" "icmp eq" "eqtmp"
  | .ne => cmpOp "fcmp one" "icmp ne" "netmp"
  | .lt => cmpOp "fcmp olt" "icmp slt" "lttmp"
  | .le => cmpOp "fcmp ole" "icmp sle" "letmp"
  | .gt => cmpOp "fcmp ogt" "icmp sgt" "gttmp"
  | .ge => cmpOp "fcmp oge" "icmp sge" "getmp"
  | .and => bitop "and" "andtmp"
  | .or => bitop "or" "ortmp"
  | .bitAnd => bitop "and" "bandtmp"
  | .bitOr => bitop "or" "bortmp"
  | .bitXor => bitop "xor" "bxortmp"
  | .shiftLeft => bitop "shl" "shltmp"
  | .shiftRight => bitop "ashr" "ashrtmp"

/-- Callee name extraction of IREmitter::emitCallExpr. -/
def calleeNameOf : Expr → String
  | .ident n => n
  | .path segments => String.intercalate "::" segments
  | _ => ""

mutual

/-- IREmitter::emitExpr. -/
def emitExpr : Expr → EmitState → Option Value × EmitState
  | .intLit v, st => (some { ty := .intT 64, k := .constInt v }, st)
  | .floatLit t, st => (some { ty := .doubleT, k := .constFP t }, st)
  | .stringLit v, st => (some { ty := .ptr, k := .globalStr v }, st)
  | .boolLit b, st =>
    (some { ty := .intT 1, k := .constInt (if b then 1 else 0) }, st)
  | .ident n, st =>
    (match st.lookupNamed n with
    | some slot =>
      let f := st.fresh
      (some { ty := slot.2, k := .inst f.1 },
        f.2.emit (.load f.1 slot.2 { ty := .ptr, k := .inst slot.1 } n))
    | none =>
      match st.getFunction n with
      | some _ => (some { ty := .ptr, k := .funcRef n }, st)
      | none =>
        (none, { st with diags := st.diags ++ [.unknownVariable n] }))
  | .binary op l r, st =>
    let lr := emitExpr l st
    let rr := emitExpr r lr.2
    (match lr.1, rr.1 with
    | some lv, some rv =>
      let c := coerceIntPair rr.2 lv rv
      emitBinopInstr c.2.2 op c.1 c.2.1
    | _, _ => (none, rr.2))
  | .unary op e, st =>
    let orr := emitExpr e st
    (match orr.1 with
    | none => (none, orr.2)
    | some v =>
      match op with
      | .negate =>
        let f := orr.2.fresh
        if v.ty.isFloatingPointTy then
          (some { ty := v.ty, k := .inst f.1 }, f.2.emit (.fnegI f.1 v))
        else
          (some { ty := v.ty, k := .inst f.1 }, f.2.emit (.negI f.1 v))
      | .not =>
        let f := orr.2.fresh
        (some { ty := v.ty, k := .inst f.1 }, f.2.emit (.notI f.1 v))
      | .bitwiseNot =>
        let f := orr.2.fresh
        (some { ty := v.ty, k := .inst f.1 }, f.2.emit (.notI f.1 v)))
  | .call callee args, st =>
    let calleeName := calleeNameOf callee
    (match st.getFunction calleeName with
    | none =>
      (none, { st with diags := st.diags ++ [.unknownFunction calleeName] })
    | some fn =>
      let ar := emitCallArgs args st
      match ar.1 with
      | none => (none, ar.2)
      | some vals =>
        if fn.retTy.isVoidTy then
          let f := ar.2.fresh
          (none, f.2.emit (.callI f.1 calleeName vals))
        else
          let f := ar.2.fresh
          (some { ty := fn.retTy, k := .inst f.1 },
            f.2.emit (.callI f.1 calleeName vals)))
  | .ifE c t e, st =>
    let cr := emitExpr c st
    (match cr.1 with
    | none => (none, cr.2)
    | some condVal =>
      let bThen := cr.2.newBlock "then" true
      let bElse := bThen.2.newBlock "else" false
      let bMerge := bElse.2.newBlock "ifcont" false
      let st1 := (bMerge.2.emit (.condBr condVal bThen.1 bElse.1)).setInsertPoint bThen.1
      let tr := emitExpr t st1
      let st2 := if tr.2.noTerminator then tr.2.emit (.br bMerge.1) else tr.2
      let thenEnd := st2.insertPt
      let st3 := (st2.attachBlock bElse.1).setInsertPoint bElse.1
      let er := emitOptExpr e st3
      let st4 := if er.2.noTerminator then er.2.emit (.br bMerge.1) else er.2
      let elseEnd := st4.insertPt
      let st5 := (st4.attachBlock bMerge.1).setInsertPoint bMerge.1
      match tr.1, er.1 with
      | some tv, some ev =>
        if LLVMType.beq tv.ty ev.ty then
          let f := st5.fresh
          (some { ty := tv.ty, k := .inst f.1 },
            f.2.emit (.phi f.1 tv.ty [(tv, thenEnd), (ev, elseEnd)]))
        else (tr.1, st5)
      | _, _ => (tr.1, st5))
  | .blockE stmts finalExpr, st =>
    emitOptExpr finalExpr (emitStmtList stmts st)
  | .assign t v, st =>
    let vr := emitExpr v st
    (match vr.1 with
    | none => (none, vr.2)
    | some val =>
      match t with
      | .ident n =>
        (match vr.2.lookupNamed n with
        | some slot =>
          (some val,
            vr.2.emit (.store val { ty := .ptr, k := .inst slot.1 }))
        | none => (none, vr.2))
      | _ => (none, vr.2))
  -- default: unsupported expression forms produce no value
  | .charLit _, st => (none, st)
  | .path _, st => (none, st)
  | .methodCall _ _ _, st => (none, st)
  | .memberAccess _ _, st => (none, st)
  | .indexE _ _, st => (none, st)
  | .cast _ _, st => (none, st)
  | .matchE _ _, st => (none, st)
  | .closure _ _ _, st => (none, st)
  | .construct _ _, st => (none, st)
  | .structLit _ _, st => (none, st)
  | .tuple _, st => (none, st)
  | .arrayE _, st => (none, st)
  | .range _ _ _, st => (none, st)
  | .refE _, st => (none, st)
  | .mutRef _, st => (none, st)
  | .move _, st => (none, st)
  | .await _, st => (none, st)
  | .tryE _, st => (none, st)
  | .compoundAssign _ _ _, st => (none, st)

def emitOptExpr : Option Expr → EmitState → Option Value × EmitState
  | none, st => (none, st)
  | some e, st => emitExpr e st

/-- Argument loop of emitCallExpr: stop at the first argument that yields
no value. -/
def emitCallArgs : List Expr → EmitState → Option (List Value) × EmitState
  | [], st => (some [], st)
  | e :: es, st =>
    let r := emitExpr e st
    match r.1 with
    | none => (none, r.2)
    | some v =>
      let rest := emitCallArgs es r.2
      match rest.1 with
      | none => (none, rest.2)
      | some vs => (some (v :: vs), rest.2)

/-- IREmitter::emitStmt. -/
def emitStmt : Stmt → EmitState → EmitState
  | .letS name type initializer _, st =>
    -- emitLetStmt; a missing annotation falls back to Int64
    let varType := match type with
      | some t => mapType t
      | none => LLVMType.intT 64
    let al := createEntryBlockAlloca st name varType
    let st1 := match initializer with
      | some init =>
        let ir := emitExpr init al.2
        (match ir.1 with
        | some initVal =>
          let v2 : Value × EmitState :=
            if varType.isIntegerTy && initVal.ty.isIntegerTy &&
                !(LLVMType.beq varType initVal.ty) then
              if varType.getIntegerBitWidth < initVal.ty.getIntegerBitWidth
              then
                let f := ir.2.fresh
                ({ ty := varType, k := VKind.inst f.1 },
                  f.2.emit (.truncI f.1 initVal varType))
              else
                let f := ir.2.fresh
                ({ ty := varType, k := VKind.inst f.1 },
                  f.2.emit (.sext f.1 initVal varType))
            else (initVal, ir.2)
          v2.2.emit (.store v2.1 { ty := .ptr, k := .inst al.1 })
        | none => ir.2)
      | none => al.2
    st1.setNamed name (al.1, varType)
  | .returnS value, st =>
    (match value with
    | some v =>
      let r := emitExpr v st
      match r.1 with
      | some val => r.2.emit (.retV val)
      | none => r.2.emit .retVoid
    | none => st.emit .retVoid)
  | .ifS c t (some eb), st =>
    let cr := emitExpr c st
    (match cr.1 with
    | none => cr.2
    | some condVal =>
      let bThen := cr.2.newBlock "then" true
      let bElse := bThen.2.newBlock "else" false
      let bMerge := bElse.2.newBlock "ifcont" false
      let st1 := bMerge.2.emit (.condBr condVal bThen.1 bElse.1)
      let st2 := st1.setInsertPoint bThen.1
      let st3 := emitStmt t st2
      let st4 := if st3.noTerminator then st3.emit (.br bMerge.1) else st3
      let s := (st4.attachBlock bElse.1).setInsertPoint bElse.1
      let s1 := emitStmt eb s
      let st5 := if s1.noTerminator then s1.emit (.br bMerge.1) else s1
      (st5.attachBlock bMerge.1).setInsertPoint bMerge.1)
  | .ifS c t none, st =>
    let cr := emitExpr c st
    (match cr.1 with
    | none => cr.2
    | some condVal =>
      let bThen := cr.2.newBlock "then" true
      let bElse := bThen.2.newBlock "else" false
      let bMerge := bElse.2.newBlock "ifcont" false
      let st1 := bMerge.2.emit (.condBr condVal bThen.1 bMerge.1)
      let st2 := st1.setInsertPoint bThen.1
      let st3 := emitStmt t st2
      let st4 := if st3.noTerminator then st3.emit (.br bMerge.1) else st3
      (st4.attachBlock bMerge.1).setInsertPoint bMerge.1)
  | .forS _ _ _ body, st =>
    -- emitForStmt: counted-loop placeholder shape
    let bCond := st.newBlock "for.cond" true
    let bBody := bCond.2.newBlock "for.body" true
    let bExit := bBody.2.newBlock "for.exit" true
    let st1 := (bExit.2.emit (.br bCond.1)).setInsertPoint bCond.1
    let st2 := (st1.emit (.br bBody.1)).setInsertPoint bBody.1
    let st3 := { st2 with loopStack := (bExit.1, bCond.1) :: st2.loopStack }
    let st4 := emitStmt body st3
    let st5 := { st4 with loopStack := st4.loopStack.tail }
    let st6 := if st5.noTerminator then st5.emit (.br bExit.1) else st5
    st6.setInsertPoint bExit.1
  | .whileS c body, st =>
    let bCond := st.newBlock "while.cond" true
    let bBody := bCond.2.newBlock "while.body" true
    let bExit := bBody.2.newBlock "while.exit" true
    let st1 := (bExit.2.emit (.br bCond.1)).setInsertPoint bCond.1
    let cr := emitExpr c st1
    let st2 := match cr.1 with
      | some condVal => cr.2.emit (.condBr condVal bBody.1 bExit.1)
      | none => cr.2
    let st3 := st2.setInsertPoint bBody.1
    let st4 := { st3 with loopStack := (bExit.1, bCond.1) :: st3.loopStack }
    let st5 := emitStmt body st4
    let st6 := { st5 with loopStack := st5.loopStack.tail }
    let st7 := if st6.noTerminator then st6.emit (.br bCond.1) else st6
    st7.setInsertPoint bExit.1
  | .loopS body, st =>
    let bBody := st.newBlock "loop.body" true
    let bExit := bBody.2.newBlock "loop.exit" true
    let st1 := (bExit.2.emit (.br bBody.1)).setInsertPoint bBody.1
    let st2 := { st1 with loopStack := (bExit.1, bBody.1) :: st1.loopStack }
    let st3 := emitStmt body st2
    let st4 := { st3 with loopStack := st3.loopStack.tail }
    let st5 := if st4.noTerminator then st4.emit (.br bBody.1) else st4
    st5.setInsertPoint bExit.1
  | .blockS ss, st => emitStmtList ss st
  | .exprS e, st => (emitExpr e st).2
  | .breakS, st =>
    if st.loopStack.isEmpty then st
    else st.emit (.br (st.loopStack.headD (0, 0)).1)
  | .continueS, st =>
    if st.loopStack.isEmpty then st
    else st.emit (.br (st.loopStack.headD (0, 0)).2)
  -- default: Const and Match statements emit nothing
  | .constS _ _ _, st => st
  | .matchS _ _, st => st

def emitStmtList : List Stmt → EmitState → EmitState
  | [], st => st
  | stmt :: ss, st => emitStmtList ss (emitStmt stmt st)

end

/-- The trailing implicit-return step of IREmitter::emitFuncDecl: when the
current block has no terminator, return void for a void function and the
zero value of the lowered return type otherwise. -/
def addImplicitReturn (retTy : LLVMType) (st : EmitState) : EmitState :=
  if st.noTerminator then
    if retTy.isVoidTy then st.emit .retVoid
    else st.emit (.retV { ty := retTy, k := .nullV })
  else st

/-- Parameter slot setup of emitFuncDecl: one alloca plus store per
argument, recorded in the name map. -/
def setupParams (st : EmitState) : List (String × LLVMType) → EmitState
  | [] => st
  | (n, ty) :: rest =>
    let al := createEntryBlockAlloca st n ty
    let st1 := al.2.emit (.store { ty := ty, k := .argV n }
      { ty := .ptr, k := .inst al.1 })
    setupParams (st1.setNamed n (al.1, ty)) rest

/-- Lowered return type of a function declaration. -/
def lowerRetTy (fd : FuncData) : LLVMType :=
  match fd.returnType with
  | some t => mapType t
  | none => .voidT

/-- Lowered parameter types (missing annotations become pointers). -/
def lowerParamTys (params : List FuncParam) : List LLVMType :=
  params.map (fun p => match p.type with
    | some t => mapType t
    | none => .ptr)

/-- Function creation step of emitFuncDecl: llvm::Function::Create with
the lowered signature and linkage appended to the module. -/
def declareFunc (fd : FuncData) (st : EmitState) : EmitState :=
  { st with funcs := st.funcs ++
      [{ name := fd.name,
         retTy := lowerRetTy fd,
         paramTys := lowerParamTys fd.params,
         argNames := fd.params.map (fun p => p.name),
         external := fd.visibility = .publicV || fd.name = "main",
         blockIds := [] }] }

/-- Body stage of emitFuncDecl: create and enter the entry block, set up
the parameter slots in a fresh name map, and emit every body statement.
The state it returns is the one the implicit-return step inspects. -/
def emitFuncBody (fd : FuncData) (body : List Stmt) (st1 : EmitState) :
    EmitState :=
  let entry := st1.newBlock "entry" true
  let st2 := entry.2.setInsertPoint entry.1
  let st3 := { st2 with namedValues := [] }
  let st4 := setupParams st3
    (fd.params.map (fun p => p.name) |>.zip (lowerParamTys fd.params))
  emitStmtList body st4

/-- IREmitter::emitFuncDecl. -/
def emitFuncDecl (fd : FuncData) (st : EmitState) : EmitState :=
  let st1 := declareFunc fd st
  match fd.body with
  | none => st1
  | some body =>
    let st5 := emitFuncBody fd body st1
    let st6 := addImplicitReturn (lowerRetTy fd) st5
    -- llvm::verifyFunction is assumed to pass (external library, unmodeled)
    { st6 with namedValues := st1.namedValues }

/-- IREmitter::emitStructDecl - creates a named struct type. -/
def emitStructDecl (name : String) (fields : List FieldDecl)
    (st : EmitState) : EmitState :=
  let tys := fields.foldr (fun f acc => match f.type with
    | some t => mapType t :: acc
    | none => acc) []
  { st with namedStructs := st.namedStructs ++ [(name, tys)] }

/-- IREmitter::emitDecl - functions, structs and enums only (enums are a
future pass and emit nothing). -/
def emitDecl (d : Decl) (st : EmitState) : EmitState :=
  match d with
  | .funcD fd => emitFuncDecl fd st
  | .structD name _ fields _ => emitStructDecl name fields st
  | .enumD _ _ _ _ => st
  | _ => st

def emitDecls : List Decl → EmitState → EmitState
  | [], st => st
  | d :: ds, st => emitDecls ds (emitDecl d st)

/-! ## Tokens (Lexer/Token.h) -/

inductive TokenKind where
  | Eof | Invalid | Newline
  | IntLiteral | FloatLiteral | StringLiteral | CharLiteral | BoolLiteral
  | Identifier
  | KwModule | KwImport | KwFunc | KwLet | KwMut | KwConst | KwStruct
  | KwClass | KwEnum | KwTrait | KwImpl | KwType | KwSelf | KwSelfType
  | KwIf | KwElse | KwMatch | KwFor | KwWhile | KwLoop | KwBreak
  | KwContinue | KwReturn | KwIn
  | KwMove | KwRef | KwDrop
  | KwAsync | KwAwait | KwSpawn
  | KwUnsafeTok
  | KwPub | KwPublic | KwPrivate
  | KwTrue | KwFalse | KwAnd | KwOr | KwNot
  | KwAs | KwIs | KwWhere | KwUse | KwVoid | KwPanic | KwAssert
  | KwDoc | KwDeprecatedTok | KwTest
  | LParen | RParen | LBracket | LBrace | RBrace | RBracket
  | Comma | Semicolon | Colon | ColonColon | Dot | DotDot | DotDotDot
  | Arrow | FatArrow | At | Hash | HashBang
  | Plus | Minus | Star | Slash | Percent
  | Equal | EqualEqual | BangEqual | Less | LessEqual | Greater
  | GreaterEqual
  | Ampersand | Pipe | Caret | Tilde | ShiftLeft | ShiftRight
  | PlusEqual | MinusEqual | StarEqual | SlashEqual | PercentEqual
  | AmpersandEqual | PipeEqual | CaretEqual
  | Question | Underscore
  | Apostrophe
  deriving DecidableEq, Repr

/-- A token (Token.h).  The C++ location is (filename, line, column,
offset); the filename is a run-wide constant and is dropped.  intValue and
floatText model the value union; floatText holds the cleaned literal text
because the std::stod double conversion is floating point and unmodeled. -/
structure Token where
  kind : TokenKind := .Eof
  text : List Char := []
  line : Nat := 0
  column : Nat := 0
  offset : Nat := 0
  intValue : Int := 0
  floatText : List Char := []
  deriving DecidableEq, Repr

/-- Keyword table lookup (Lexer.cpp keywords map + identifierKind). -/
def identifierKind (text : String) : TokenKind :=
  match text with
  | "module" => .KwModule
  | "import" => .KwImport
  | "func" => .KwFunc
  | "let" => .KwLet
  | "mut" => .KwMut
  | "const" => .KwConst
  | "struct" => .KwStruct
  | "class" => .KwClass
  | "enum" => .KwEnum
  | "trait" => .KwTrait
  | "impl" => .KwImpl
  | "type" => .KwType
  | "self" => .KwSelf
  | "Self" => .KwSelfType
  | "if" => .KwIf
  | "else" => .KwElse
  | "match" => .KwMatch
  | "for" => .KwFor
  | "while" => .KwWhile
  | "loop" => .KwLoop
  | "break" => .KwBreak
  | "continue" => .KwContinue
  | "return" => .KwReturn
  | "in" => .KwIn
  | "move" => .KwMove
  | "ref" => .KwRef
  | "drop" => .KwDrop
  | "async" => .KwAsync
  | "await" => .KwAwait
  | "spawn" => .KwSpawn
  | "unsafe" => .KwUnsafeTok
  | "pub" => .KwPub
  | "public" => .KwPublic
  | "private" => .KwPrivate
  | "true" => .KwTrue
  | "false" => .KwFalse
  | "and" => .KwAnd
  | "or" => .KwOr
  | "not" => .KwNot
  | "as" => .KwAs
  | "is" => .KwIs
  | "where" => .KwWhere
  | "use" => .KwUse
  | "Void" => .KwVoid
  | "panic" => .KwPanic
  | "assert" => .KwAssert
  | _ => .Identifier

/-! ## Lexer state and character primitives (Lexer/Lexer.h, Lexer.cpp) -/

/-- The mutable fields of the Lexer, exactly the eight captured by
Lexer::State (source and filename are immutable, the diagnostics engine
is threaded separately since save/restore does not touch it). -/
structure LexState where
  current : Nat := 0
  tokenStart : Nat := 0
  line : Nat := 1
  column : Nat := 1
  tokenLine : Nat := 1
  tokenColumn : Nat := 1
  hasPeeked : Bool := false
  peekedToken : Token := {}
  deriving DecidableEq, Repr

/-- Lexer::saveState - copy out all eight fields. -/
def saveState (st : LexState) : LexState :=
  { current := st.current, tokenStart := st.tokenStart, line := st.line,
    column := st.column, tokenLine := st.tokenLine,
    tokenColumn := st.tokenColumn, hasPeeked := st.hasPeeked,
    peekedToken := st.peekedToken }

/-- Lexer::restoreState - assign all eight fields from the snapshot. -/
def restoreState (s : LexState) (st : LexState) : LexState :=
  { st with
    current := s.current
    tokenStart := s.tokenStart
    line := s.line
    column := s.column
    tokenLine := s.tokenLine
    tokenColumn := s.tokenColumn
    hasPeeked := s.hasPeeked
    peekedToken := s.peekedToken }

/-- Lexer::isAtEnd. -/
def atEnd (src : List Char) (st : LexState) : Bool :=
  src.length ≤ st.current

/-- Lexer::peek - current character, NUL at end. -/
def peekc (src : List Char) (st : LexState) : Char :=
  src.getD st.current '\x00'

/-- Lexer::peekNext. -/
def peekNext (src : List Char) (st : LexState) : Char :=
  src.getD (st.current + 1) '\x00'

/-- Lexer::advance - consume one character, tracking line and column. -/
def advanceL (src : List Char) (st : LexState) : Char × LexState :=
  let c := src.getD st.current '\x00'
  if c = '\n' then
    (c, { st with
          current := st.current + 1
          line := st.line + 1
          column := 1 })
  else
    (c, { st with current := st.current + 1, column := st.column + 1 })

theorem advanceL_current (src : List Char) (st : LexState) :
    ((advanceL src st).2).current = st.current + 1 := by
  simp only [advanceL]
  split <;> rfl

theorem advanceL_keeps (src : List Char) (st : LexState) :
    ((advanceL src st).2).tokenStart = st.tokenStart ∧
    ((advanceL src st).2).tokenLine = st.tokenLine ∧
    ((advanceL src st).2).tokenColumn = st.tokenColumn ∧
    ((advanceL src st).2).hasPeeked = st.hasPeeked := by
  simp only [advanceL]
  split <;> exact ⟨rfl, rfl, rfl, rfl⟩

/-- Lexer::match - conditional consume. -/
def matchc (src : List Char) (st : LexState) (expected : Char) :
    Bool × LexState :=
  if atEnd src st ∨ src.getD st.current '\x00' ≠ expected then (false, st)
  else (true, (advanceL src st).2)

/-- C-locale std::isxdigit. -/
def isXDigit (c : Char) : Bool :=
  c.isDigit || ('a' ≤ c && c ≤ 'f') || ('A' ≤ c && c ≤ 'F')

/-- source_.substr(a, b - a) as a character list. -/
def slice (src : List Char) (a b : Nat) : List Char :=
  (src.drop a).take (b - a)

/-! ## Scanning loops (the while loops of Lexer.cpp) -/

/-- Body loop of skipLineComment: consume until newline or end. -/
def lineCommentLoop (src : List Char) (st : LexState) : LexState :=
  if _h : st.current < src.length then
    if src.getD st.current '\x00' ≠ '\n' then
      lineCommentLoop src (advanceL src st).2
    else st
  else st
termination_by src.length - st.current
decreasing_by simp [advanceL_current]; omega

theorem lineCommentLoop_mono (src : List Char) (st : LexState) :
    st.current ≤ (lineCommentLoop src st).current := by
  induction st using lineCommentLoop.induct src with
  | case1 st h1 h2 ih =>
    rw [lineCommentLoop, dif_pos h1, if_pos h2]
    have := advanceL_current src st
    omega
  | case2 st h1 h2 => rw [lineCommentLoop, dif_pos h1, if_neg h2]
  | case3 st h1 => rw [lineCommentLoop, dif_neg h1]

/-- Lexer::skipLineComment - skip the two slashes, then the loop. -/
def skipLineComment (src : List Char) (st : LexState) : LexState :=
  lineCommentLoop src (advanceL src (advanceL src st).2).2

theorem skipLineComment_progress (src : List Char) (st : LexState) :
    st.current + 2 ≤ (skipLineComment src st).current := by
  have h1 := lineCommentLoop_mono src (advanceL src (advanceL src st).2).2
  simp only [skipLineComment]
  have h2 := advanceL_current src st
  have h3 := advanceL_current src (advanceL src st).2
  omega

/-- Body loop of skipBlockComment: nested comments via a depth counter. -/
def blockCommentLoop (src : List Char) (st : LexState) (depth : Nat) :
    LexState × Nat :=
  if _h : st.current < src.length then
    if depth > 0 then
      if src.getD st.current '\x00' = '/' ∧ peekNext src st = '*' then
        blockCommentLoop src (advanceL src (advanceL src st).2).2 (depth + 1)
      else if src.getD st.current '\x00' = '*' ∧ peekNext src st = '/' then
        blockCommentLoop src (advanceL src (advanceL src st).2).2 (depth - 1)
      else
        blockCommentLoop src (advanceL src st).2 depth
    else (st, depth)
  else (st, depth)
termination_by src.length - st.current
decreasing_by all_goals simp [advanceL_current]; omega

theorem blockCommentLoop_mono (src : List Char) (st : LexState)
    (depth : Nat) : st.current ≤ (blockCommentLoop src st depth).1.current := by
  induction st, depth using blockCommentLoop.induct src with
  | case1 st depth h1 h2 h3 ih =>
    rw [blockCommentLoop, dif_pos h1, if_pos h2, if_pos h3]
    have := advanceL_current src st
    have := advanceL_current src (advanceL src st).2
    omega
  | case2 st depth h1 h2 h3 h4 ih =>
    rw [blockCommentLoop, dif_pos h1, if_pos h2, if_neg h3, if_pos h4]
    have := advanceL_current src st
    have := advanceL_current src (advanceL src st).2
    omega
  | case3 st depth h1 h2 h3 h4 ih =>
    rw [blockCommentLoop, dif_pos h1, if_pos h2, if_neg h3, if_neg h4]
    have := advanceL_current src st
    omega
  | case4 st depth h1 h2 => rw [blockCommentLoop, dif_pos h1, if_neg h2]
  | case5 st depth h1 => rw [blockCommentLoop, dif_neg h1]

/-- Lexer::skipBlockComment - skip the opener, loop, diagnose when the
depth never returned to zero.  Returns success, the state, and diags. -/
def skipBlockComment (src : List Char) (st : LexState) :
    Bool × LexState × List Diag :=
  let r := blockCommentLoop src (advanceL src (advanceL src st).2).2 1
  if r.2 > 0 then (false, r.1, [.unterminatedBlockComment])
  else (true, r.1, [])

theorem skipBlockComment_progress (src : List Char) (st : LexState) :
    st.current + 2 ≤ (skipBlockComment src st).2.1.current := by
  have h1 := blockCommentLoop_mono src (advanceL src (advanceL src st).2).2 1
  have h2 := advanceL_current src st
  have h3 := advanceL_current src (advanceL src st).2
  simp only [skipBlockComment]
  split <;> simp <;> omega

/-- Lexer::skipWhitespace - whitespace, line comments, block comments. -/
def skipWhitespace (src : List Char) (st : LexState) :
    LexState × List Diag :=
  if _h : st.current < src.length then
    let c := src.getD st.current '\x00'
    if c = ' ' ∨ c = '\t' ∨ c = '\r' ∨ c = '\n' then
      skipWhitespace src (advanceL src st).2
    else if c = '/' then
      if peekNext src st = '/' then
        skipWhitespace src (skipLineComment src st)
      else if peekNext src st = '*' then
        let r := skipBlockComment src st
        if r.1 then
          let r2 := skipWhitespace src r.2.1
          (r2.1, r.2.2 ++ r2.2)
        else (r.2.1, r.2.2)
      else (st, [])
    else (st, [])
  else (st, [])
termination_by src.length - st.current
decreasing_by
  · simp [advanceL_current]; omega
  · have := skipLineComment_progress src st; omega
  · have := skipBlockComment_progress src st; omega

/-! ## Token producers (Lexer.cpp) -/

/-- Lexer::makeToken - token over [tokenStart, current) at the recorded
token position. -/
def makeToken (src : List Char) (st : LexState) (kind : TokenKind) : Token :=
  { kind := kind
    text := slice src st.tokenStart st.current
    line := st.tokenLine
    column := st.tokenColumn
    offset := st.tokenStart
    intValue := 0 }

/-- Lexer::errorToken - emit the diagnostic and produce an Invalid token.
Never throws: the result is an ordinary token plus a recorded diag. -/
def errorToken (src : List Char) (st : LexState) (d : Diag) :
    Token × LexState × List Diag :=
  ({ kind := .Invalid
     text := slice src st.tokenStart st.current
     line := st.tokenLine
     column := st.tokenColumn
     offset := st.tokenStart
     intValue := 0 }, st, [d])

/-- Identifier-character loop, shared by identifiers, lifetimes and
annotation names: consume [A-Za-z0-9_]*. -/
def identLoop (src : List Char) (st : LexState) : LexState :=
  if _h : st.current < src.length then
    if (src.getD st.current '\x00').isAlphanum ∨
        src.getD st.current '\x00' = '_' then
      identLoop src (advanceL src st).2
    else st
  else st
termination_by src.length - st.current
decreasing_by simp [advanceL_current]; omega

/-- Lexer::lexIdentifierOrKeyword. -/
def lexIdentifierOrKeyword (src : List Char) (st : LexState) :
    Token × LexState :=
  let st1 := identLoop src st
  let text := slice src st1.tokenStart st1.current
  (makeToken src st1 (identifierKind text.asString), st1)

/-- Digit loop of the hexadecimal branch: [0-9A-Fa-f_]*. -/
def hexLoop (src : List Char) (st : LexState) : LexState :=
  if _h : st.current < src.length then
    if isXDigit (src.getD st.current '\x00') ∨
        src.getD st.current '\x00' = '_' then
      hexLoop src (advanceL src st).2
    else st
  else st
termination_by src.length - st.current
decreasing_by simp [advanceL_current]; omega

/-- Digit loop of the binary branch: [01_]*. -/
def binLoop (src : List Char) (st : LexState) : LexState :=
  if _h : st.current < src.length then
    if src.getD st.current '\x00' = '0' ∨ src.getD st.current '\x00' = '1' ∨
        src.getD st.current '\x00' = '_' then
      binLoop src (advanceL src st).2
    else st
  else st
termination_by src.length - st.current
decreasing_by simp [advanceL_current]; omega

/-- Digit loop of the octal branch: [0-7_]*. -/
def octLoop (src : List Char) (st : LexState) : LexState :=
  if _h : st.current < src.length then
    if ('0' ≤ src.getD st.current '\x00' ∧
        src.getD st.current '\x00' ≤ '7') ∨
        src.getD st.current '\x00' = '_' then
      octLoop src (advanceL src st).2
    else st
  else st
termination_by src.length - st.current
decreasing_by simp [advanceL_current]; omega

/-- Decimal digit loop: [0-9_]*. -/
def decLoop (src : List Char) (st : LexState) : LexState :=
  if _h : st.current < src.length then
    if (src.getD st.current '\x00').isDigit ∨
        src.getD st.current '\x00' = '_' then
      decLoop src (advanceL src st).2
    else st
  else st
termination_by src.length - st.current
decreasing_by simp [advanceL_current]; omega

/-- Digit value for bases up to 16. -/
def digitVal (c : Char) : Nat :=
  if c.isDigit then c.toNat - '0'.toNat
  else if 'a' ≤ c ∧ c ≤ 'f' then c.toNat - 'a'.toNat + 10
  else if 'A' ≤ c ∧ c ≤ 'F' then c.toNat - 'A'.toNat + 10
  else 0

/-- std::stoll on a digit string of the given base.  The strings the lexer
passes contain only digits of the base (the scanners guarantee it), so the
two failure modes are: an empty string throws std::invalid_argument, and a
value beyond the 64-bit signed range (2^63 - 1 here, the values are never
negative) throws std::out_of_range. -/
def stollE (digits : List Char) (base : Nat) : Except String Int :=
  if digits.isEmpty then .error "invalid_argument: stoll"
  else
    let v : Nat := digits.foldl (fun a c => a * base + digitVal c) 0
    if v > 9223372036854775807 then .error "out_of_range: stoll"
    else .ok (v : Int)

/-- Strip underscores from the token text, skipping the two prefix
characters (the for loop starting at i = 2 in the numeric branches). -/
def cleanFrom2 (text : List Char) : List Char :=
  (text.drop 2).filter (fun c => c ≠ '_')

/-- Strip underscores from the whole token text. -/
def cleanAll (text : List Char) : List Char :=
  text.filter (fun c => c ≠ '_')

/-- Decimal / float tail of Lexer::lexNumber (after the prefix checks fall
through).  The std::stod conversion of the float branch is floating point
and unmodeled; the cleaned text is stored instead. -/
def lexDecimal (src : List Char) (st : LexState) :
    Except String (Token × LexState × List Diag) :=
  let st1 := decLoop src st
  -- fractional part when the dot is not the start of a range
  let dotted :=
    peekc src st1 = '.' ∧ peekNext src st1 ≠ '.'
  let st2 := if dotted then decLoop src (advanceL src st1).2 else st1
  let isFloat1 := dotted
  -- exponent
  if peekc src st2 = 'e' ∨ peekc src st2 = 'E' then
    let st3 := (advanceL src st2).2
    let st4 := if peekc src st3 = '+' ∨ peekc src st3 = '-' then
      (advanceL src st3).2 else st3
    if ¬ (peekc src st4).isDigit then
      .ok (errorToken src st4 .expectedDigitInExponent)
    else
      let st5 := decLoop src st4
      let tok := makeToken src st5 .FloatLiteral
      .ok ({ tok with floatText := cleanAll tok.text }, st5, [])
  else if isFloat1 then
    let tok := makeToken src st2 .FloatLiteral
    .ok ({ tok with floatText := cleanAll tok.text }, st2, [])
  else
    let tok := makeToken src st2 .IntLiteral
    match stollE (cleanAll tok.text) 10 with
    | .ok v => .ok ({ tok with intValue := v }, st2, [])
    | .error e => .error e

/-- Lexer::lexNumber.  Entered at the first digit (current = tokenStart).
The guard before the hex and binary scanners skips the missing-digit check
at end of input, and the octal branch has no such check at all; in those
cases the cleaned digit string is empty and std::stoll throws. -/
def lexNumber (src : List Char) (st : LexState) :
    Except String (Token × LexState × List Diag) :=
  if peekc src st = '0' ∧ ¬ atEnd src st then
    let next := peekNext src st
    if next = 'x' ∨ next = 'X' then
      let st1 := (advanceL src (advanceL src st).2).2
      if ¬ atEnd src st1 ∧ ¬ isXDigit (peekc src st1) then
        .ok (errorToken src st1 .expectedHexDigit)
      else
        let st2 := hexLoop src st1
        let tok := makeToken src st2 .IntLiteral
        match stollE (cleanFrom2 tok.text) 16 with
        | .ok v => .ok ({ tok with intValue := v }, st2, [])
        | .error e => .error e
    else if next = 'b' ∨ next = 'B' then
      let st1 := (advanceL src (advanceL src st).2).2
      if ¬ atEnd src st1 ∧ peekc src st1 ≠ '0' ∧ peekc src st1 ≠ '1' then
        .ok (errorToken src st1 .expectedBinaryDigit)
      else
        let st2 := binLoop src st1
        let tok := makeToken src st2 .IntLiteral
        match stollE (cleanFrom2 tok.text) 2 with
        | .ok v => .ok ({ tok with intValue := v }, st2, [])
        | .error e => .error e
    else if next = 'o' ∨ next = 'O' then
      let st1 := (advanceL src (advanceL src st).2).2
      let st2 := octLoop src st1
      let tok := makeToken src st2 .IntLiteral
      match stollE (cleanFrom2 tok.text) 8 with
      | .ok v => .ok ({ tok with intValue := v }, st2, [])
      | .error e => .error e
    else lexDecimal src st
  else lexDecimal src st

/-- Result of the string-body loop of Lexer::lexString. -/
inductive StrScan where
  /-- stopped at the closing quote -/
  | closed (st : LexState)
  /-- stopped at an unescaped newline -/
  | newlineAt (st : LexState)
  /-- ran off the end of the input -/
  | eofAt (st : LexState)

/-- Body loop of lexString: a backslash consumes the next character
unconditionally (so an escaped newline continues the literal); an
unescaped newline or the end of input stops with an error. -/
def stringLoop (src : List Char) (st : LexState) : StrScan :=
  if _h : st.current < src.length then
    if src.getD st.current '\x00' = '"' then .closed st
    else if src.getD st.current '\x00' = '\\' then
      if atEnd src (advanceL src st).2 then .eofAt (advanceL src st).2
      else stringLoop src (advanceL src (advanceL src st).2).2
    else if src.getD st.current '\x00' = '\n' then .newlineAt st
    else stringLoop src (advanceL src st).2
  else .eofAt st
termination_by src.length - st.current
decreasing_by all_goals simp [advanceL_current]; omega

/-- Lexer::lexString.  Entered at the opening quote; the token text is the
content without the quotes. -/
def lexString (src : List Char) (st : LexState) :
    Token × LexState × List Diag :=
  let st1 := (advanceL src st).2
  let contentStart := st1.current
  match stringLoop src st1 with
  | .closed st2 =>
    let contentEnd := st2.current
    let st3 := (advanceL src st2).2
    let tok := makeToken src st3 .StringLiteral
    ({ tok with text := slice src contentStart contentEnd }, st3, [])
  | .newlineAt st2 => errorToken src st2 .newlineInString
  | .eofAt st2 => errorToken src st2 .unterminatedString

/-- Lexer::lexChar.  Entered at the opening quote. -/
def lexChar (src : List Char) (st : LexState) :
    Token × LexState × List Diag :=
  let st1 := (advanceL src st).2
  if atEnd src st1 then errorToken src st1 .unterminatedChar
  else
    let st3 :=
      if peekc src st1 = '\\' then
        let st2 := (advanceL src st1).2
        if atEnd src st2 then none
        else some (advanceL src st2).2
      else some (advanceL src st1).2
    match st3 with
    | none =>
      -- backslash then end of input
      errorToken src (advanceL src st1).2 .unterminatedChar
    | some st4 =>
      if atEnd src st4 ∨ peekc src st4 ≠ '\'' then
        errorToken src st4 .unterminatedCharClosing
      else (makeToken src (advanceL src st4).2 .CharLiteral,
        (advanceL src st4).2, [])

/-- Lexer::lexAnnotation.  Entered at the at-sign; doc, deprecated and
test produce their keyword tokens, anything else resets to just after the
at-sign and produces At. -/
def lexAnnotation (src : List Char) (st : LexState) :
    Token × LexState :=
  let st1 := (advanceL src st).2
  let nameStart := st1.current
  let st2 := identLoop src st1
  let name := slice src nameStart st2.current
  if name.asString = "doc" then (makeToken src st2 .KwDoc, st2)
  else if name.asString = "deprecated" then
    (makeToken src st2 .KwDeprecatedTok, st2)
  else if name.asString = "test" then (makeToken src st2 .KwTest, st2)
  else
    let st3 := { st2 with
      current := nameStart
      line := st2.tokenLine
      column := st2.tokenColumn + 1 }
    (makeToken src st3 .At, st3)

/-! ## Lexer::nextToken and the token stream -/

/-- The operators-and-punctuation switch at the end of nextToken; c is the
consumed character, st the state after consuming it. -/
def lexOperator (src : List Char) (c : Char) (st : LexState) :
    Token × LexState × List Diag :=
  if c = '(' then (makeToken src st .LParen, st, [])
  else if c = ')' then (makeToken src st .RParen, st, [])
  else if c = '[' then (makeToken src st .LBracket, st, [])
  else if c = ']' then (makeToken src st .RBracket, st, [])
  else if c = '{' then (makeToken src st .LBrace, st, [])
  else if c = '}' then (makeToken src st .RBrace, st, [])
  else if c = ',' then (makeToken src st .Comma, st, [])
  else if c = ';' then (makeToken src st .Semicolon, st, [])
  else if c = '~' then (makeToken src st .Tilde, st, [])
  else if c = '?' then (makeToken src st .Question, st, [])
  else if c = ':' then
    let m := matchc src st ':'
    if m.1 then (makeToken src m.2 .ColonColon, m.2, [])
    else (makeToken src m.2 .Colon, m.2, [])
  else if c = '.' then
    let m := matchc src st '.'
    if m.1 then
      let m2 := matchc src m.2 '.'
      if m2.1 then (makeToken src m2.2 .DotDotDot, m2.2, [])
      else (makeToken src m2.2 .DotDot, m2.2, [])
    else (makeToken src m.2 .Dot, m.2, [])
  else if c = '+' then
    let m := matchc src st '='
    if m.1 then (makeToken src m.2 .PlusEqual, m.2, [])
    else (makeToken src m.2 .Plus, m.2, [])
  else if c = '-' then
    let m := matchc src st '>'
    if m.1 then (makeToken src m.2 .Arrow, m.2, [])
    else
      let m2 := matchc src m.2 '='
      if m2.1 then (makeToken src m2.2 .MinusEqual, m2.2, [])
      else (makeToken src m2.2 .Minus, m2.2, [])
  else if c = '*' then
    let m := matchc src st '='
    if m.1 then (makeToken src m.2 .StarEqual, m.2, [])
    else (makeToken src m.2 .Star, m.2, [])
  else if c = '/' then
    let m := matchc src st '='
    if m.1 then (makeToken src m.2 .SlashEqual, m.2, [])
    else (makeToken src m.2 .Slash, m.2, [])
  else if c = '%' then
    let m := matchc src st '='
    if m.1 then (makeToken src m.2 .PercentEqual, m.2, [])
    else (makeToken src m.2 .Percent, m.2, [])
  else if c = '=' then
    let m := matchc src st '='
    if m.1 then (makeToken src m.2 .EqualEqual, m.2, [])
    else
      let m2 := matchc src m.2 '>'
      if m2.1 then (makeToken src m2.2 .FatArrow, m2.2, [])
      else (makeToken src m2.2 .Equal, m2.2, [])
  else if c = '!' then
    let m := matchc src st '='
    if m.1 then (makeToken src m.2 .BangEqual, m.2, [])
    else errorToken src m.2 .unexpectedBang
  else if c = '<' then
    let m := matchc src st '='
    if m.1 then (makeToken src m.2 .LessEqual, m.2, [])
    else
      let m2 := matchc src m.2 '<'
      if m2.1 then (makeToken src m2.2 .ShiftLeft, m2.2, [])
      else (makeToken src m2.2 .Less, m2.2, [])
  else if c = '>' then
    let m := matchc src st '='
    if m.1 then (makeToken src m.2 .GreaterEqual, m.2, [])
    else
      let m2 := matchc src m.2 '>'
      if m2.1 then (makeToken src m2.2 .ShiftRight, m2.2, [])
      else (makeToken src m2.2 .Greater, m2.2, [])
  else if c = '&' then
    let m := matchc src st '='
    if m.1 then (makeToken src m.2 .AmpersandEqual, m.2, [])
    else (makeToken src m.2 .Ampersand, m.2, [])
  else if c = '|' then
    let m := matchc src st '='
    if m.1 then (makeToken src m.2 .PipeEqual, m.2, [])
    else (makeToken src m.2 .Pipe, m.2, [])
  else if c = '^' then
    let m := matchc src st '='
    if m.1 then (makeToken src m.2 .CaretEqual, m.2, [])
    else (makeToken src m.2 .Caret, m.2, [])
  else if c = '#' then
    let m := matchc src st '!'
    if m.1 then (makeToken src m.2 .HashBang, m.2, [])
    else (makeToken src m.2 .Hash, m.2, [])
  else errorToken src st (.unexpectedChar c)

/-- The apostrophe branch of nextToken: one-token lookahead decides
between a char literal and a lifetime token; the state is restored on the
discarded branch.  st is the state after consuming the quote. -/
def lexApostrophe (src : List Char) (st : LexState) :
    Token × LexState × List Diag :=
  if ¬ atEnd src st ∧ (peekc src st).isAlpha then
    let savedCurrent := st.current
    let savedLine := st.line
    let savedColumn := st.column
    let stAfterFirst := (advanceL src st).2
    if ¬ atEnd src stAfterFirst ∧ peekc src stAfterFirst = '\'' then
      -- char literal such as quote-a-quote: restore, back past the quote
      let st2 := { stAfterFirst with
        current := savedCurrent - 1
        line := savedLine
        column := savedColumn - 1 }
      lexChar src st2
    else
      -- lifetime: consume the identifier characters
      let st2 := identLoop src stAfterFirst
      (makeToken src st2 .Apostrophe, st2, [])
  else if ¬ atEnd src st ∧ peekc src st = '\\' then
    let st2 := { st with current := st.current - 1, column := st.column - 1 }
    lexChar src st2
  else (makeToken src st .Apostrophe, st, [])

/-- Lexer::nextToken.  The only paths that can throw are the std::stoll
calls inside lexNumber; everything else returns a token (possibly Invalid
with a recorded diagnostic). -/
def nextToken (src : List Char) (st : LexState) :
    Except String (Token × LexState × List Diag) :=
  if st.hasPeeked then
    .ok (st.peekedToken, { st with hasPeeked := false }, [])
  else
    let sw := skipWhitespace src st
    let ds := sw.2
    let st1 := { sw.1 with
      tokenStart := sw.1.current
      tokenLine := sw.1.line
      tokenColumn := sw.1.column }
    if atEnd src st1 then .ok (makeToken src st1 .Eof, st1, ds)
    else
      let a := advanceL src st1
      let c := a.1
      let st2 := a.2
      if c.isAlpha ∨ c = '_' then
        if c = '_' ∧ (atEnd src st2 ∨
            (¬ (peekc src st2).isAlphanum ∧ peekc src st2 ≠ '_')) then
          .ok (makeToken src st2 .Underscore, st2, ds)
        else
          let r := lexIdentifierOrKeyword src st2
          .ok (r.1, r.2, ds)
      else if c.isDigit then
        -- already advanced one char, back up (c is a digit, never a
        -- newline, but the source checks it)
        let st3 :=
          if c = '\n' then
            { st2 with current := st2.current - 1, line := st2.line - 1 }
          else
            { st2 with current := st2.current - 1, column := st2.column - 1 }
        match lexNumber src st3 with
        | .ok r => .ok (r.1, r.2.1, ds ++ r.2.2)
        | .error e => .error e
      else if c = '"' then
        let st3 := { st2 with current := st2.current - 1, column := st2.column - 1 }
        let r := lexString src st3
        .ok (r.1, r.2.1, ds ++ r.2.2)
      else if c = '\'' then
        let r := lexApostrophe src st2
        .ok (r.1, r.2.1, ds ++ r.2.2)
      else if c = '@' then
        if ¬ atEnd src st2 ∧ (peekc src st2).isAlpha then
          let st3 := { st2 with current := st2.current - 1, column := st2.column - 1 }
          let r := lexAnnotation src st3
          .ok (r.1, r.2, ds)
        else .ok (makeToken src st2 .At, st2, ds)
      else
        let r := lexOperator src c st2
        .ok (r.1, r.2.1, ds ++ r.2.2)

/-- Lexer::peekToken - cache one token. -/
def peekToken (src : List Char) (st : LexState) :
    Except String (Token × LexState × List Diag) :=
  if st.hasPeeked then .ok (st.peekedToken, st, [])
  else
    match nextToken src st with
    | .ok r =>
      .ok (r.1, { r.2.1 with hasPeeked := true, peekedToken := r.1 }, r.2.2)
    | .error e => .error e

/-- The while(true) loop of Lexer::lexAll, embedded with fuel.  Every
non-EOF token consumes at least one character (or clears the peeked-token
flag), so from the initial state the fuel src.length + 2 is never
exhausted; fuel exhaustion is reported as an error like a thrown
exception, and is distinct from a normal return. -/
def lexAllLoop (src : List Char) :
    Nat → LexState → List Token → List Diag →
    Except String (List Token × LexState × List Diag)
  | 0, _, _, _ => .error "lexAll loop fuel exhausted"
  | n + 1, st, acc, ds =>
    match nextToken src st with
    | .error e => .error e
    | .ok (t, st1, ds1) =>
      if t.kind = .Eof then .ok (acc ++ [t], st1, ds ++ ds1)
      else lexAllLoop src n st1 (acc ++ [t]) (ds ++ ds1)

/-- Lexer::lexAll - every token through EOF. -/
def lexAll (src : List Char) (st : LexState) :
    Except String (List Token × LexState × List Diag) :=
  lexAllLoop src (src.length + 2) st [] []

/-- The state of a freshly constructed Lexer. -/
def initLexState : LexState := {}

/-- Lexer over a source string (the driver builds the Lexer from the file
contents and calls lexAll). -/
def lexAllString (s : String) :
    Except String (List Token × LexState × List Diag) :=
  lexAll s.toList initLexState

/-! # Theorems -/

/-! ## C4 - assignability -/

/-- C4: TypeChecker::typesCompatible(expected, actual) returns true exactly
when (a) the two strings are equal, or (b) actual is the integer-literal
default Int64 and expected is one of the integer primitive type names
Int8, Int16, Int32, Int64, UInt8, UInt16, UInt32, UInt64, or (c) actual is
Float64 and expected is Float32; every other pair is incompatible. -/
theorem c4_typesCompatible_characterization (expected actual : String) :
    typesCompatible expected actual = true ↔
      (expected = actual ∨
        (actual = "Int64" ∧
          expected ∈ ["Int8", "Int16", "Int32", "Int64",
            "UInt8", "UInt16", "UInt32", "UInt64"]) ∨
        (actual = "Float64" ∧ expected = "Float32")) := by
  unfold typesCompatible
  by_cases h1 : expected = actual
  · simp [h1]
  · simp only [if_neg h1]
    by_cases h2 : actual = "Int64" <;> by_cases h3 : actual = "Float64" <;>
      subst_vars <;> simp_all <;> tauto

/-! ## C8 - lexer save/restore -/

/-- C8: Lexer state save/restore is an identity.  restoreState(saveState())
restores all eight captured fields (current offset, token start,
line, column, token line, token column, has-peeked flag, peeked token), so
after any intervening lexing the state is exactly the saved one and every
subsequent token (nextToken, peekToken, lexAll) is the same as if the
intervening calls had not happened. -/
theorem c8_save_restore_identity (st intervening : LexState)
    (src : List Char) :
    restoreState (saveState st) intervening = st ∧
    nextToken src (restoreState (saveState st) intervening) =
      nextToken src st ∧
    peekToken src (restoreState (saveState st) intervening) =
      peekToken src st ∧
    lexAll src (restoreState (saveState st) intervening) = lexAll src st := by
  have h : restoreState (saveState st) intervening = st := rfl
  exact ⟨h, by rw [h], by rw [h], by rw [h]⟩

/-! ## C1 - the lexer can throw (code bug) -/

/-- C1 (code bug): the claim says nextToken never throws and that a 0x,
0b or 0o prefix with no digits after it, and a decimal literal that does
not fit 64 bits, produce an Invalid token plus a diagnostic.  In the code
the missing-digit check is guarded by !isAtEnd(), so at end of input the
scanner reaches std::stoll("") which throws std::invalid_argument; the
octal branch has no digit check at all, so 0o followed by a non-octal
character does the same; and an oversized decimal makes std::stoll throw
std::out_of_range.  This theorem evaluates the embedded lexer at those
failing inputs. -/
theorem c1_lexNumber_throws :
    nextToken "0x".toList initLexState = .error "invalid_argument: stoll" ∧
    nextToken "0o9".toList initLexState = .error "invalid_argument: stoll" ∧
    lexAllString "9223372036854775808" = .error "out_of_range: stoll" := by
  refine ⟨?_, ?_, ?_⟩
  · simp +decide [nextToken, initLexState, skipWhitespace, advanceL,
      lexNumber, peekc, peekNext, atEnd, hexLoop, makeToken, slice,
      cleanFrom2, stollE, lexDecimal, decLoop]
  · simp +decide [nextToken, initLexState, skipWhitespace, advanceL,
      lexNumber, peekc, peekNext, atEnd, octLoop, makeToken, slice,
      cleanFrom2, stollE, lexDecimal, decLoop]
  · simp +decide [lexAllString, lexAll, lexAllLoop, nextToken, initLexState,
      skipWhitespace, advanceL, lexNumber, peekc, peekNext, atEnd,
      makeToken, slice, cleanAll, stollE, lexDecimal, decLoop, digitVal]

/-! ## C6 - let/const initializers resolve before insertion -/

/-- C6: the resolver resolves a let or const initializer before inserting
the declared name into the current scope; hence in let x = x + 1 the
initializer occurrence of x resolves against the scope chain as it was
before the declaration - to an enclosing binding when one exists, and to
a use-of-undeclared-identifier error otherwise (a redefinition error is
additionally emitted exactly when the current scope already has x). -/
theorem c6_let_initializer_before_insert :
    (∀ (name : String) (ty : Option TypeNode) (init : Expr)
        (isMut : Bool) (st : RState),
      resolveStmt (.letS name ty (some init) isMut) st =
        insertCurrent (resolveExpr init st) name
          { kind := .varS, name := name, isMutable := isMut }
          (.redefinitionVariable name)) ∧
    (∀ (name : String) (ty : Option TypeNode) (v : Expr) (st : RState),
      resolveStmt (.constS name ty (some v)) st =
        insertCurrent (resolveExpr v st) name
          { kind := .varS, name := name, isMutable := false }
          (.redefinitionConstant name)) ∧
    (∀ (x : String) (ty : Option TypeNode) (isMut : Bool) (fr : Frame)
        (rest : List Frame) (errs : List Diag),
      (resolveStmt
          (.letS x ty (some (.binary .add (.ident x) (.intLit 1))) isMut)
          { scopes := fr :: rest, errs := errs }).errs =
        errs ++
          (if (scopesLookup (fr :: rest) x).isSome then []
           else [.undeclaredIdent x]) ++
          (if (frameLookup fr x).isSome then [.redefinitionVariable x]
           else [])) := by
  refine ⟨fun name ty init isMut st => rfl, fun name ty v st => rfl, ?_⟩
  intro x ty isMut fr rest errs
  simp only [resolveStmt, resolveOptExpr, resolveExpr, insertCurrent,
    frameInsert]
  rcases h : scopesLookup (fr :: rest) x with _ | sym
  · rcases hf : frameLookup fr x with _ | symf
    · simp [h, hf, insertCurrent, frameInsert]
    · simp [h, hf, insertCurrent, frameInsert]
  · rcases hf : frameLookup fr x with _ | symf
    · simp [h, hf, insertCurrent, frameInsert]
    · simp [h, hf, insertCurrent, frameInsert]

/-! ## C3 - phase gating of the pipeline -/

/-- Counterexample module for C3: name resolution fails (undeclared y) and
the type checker, had it run, would report the unknown return type. -/
def fD3 : FuncData where
  name := "f"
  returnType := some (.named ["Bogus"])
  body := some [.exprS (.ident "y")]

def M3 : Module where
  declarations := [.funcD fD3]

/-- C3 counterexample: the claim says the type checker still runs when
name resolution has recorded errors.  On M3 name resolution records an
error, Sema::analyze returns before constructing the type checker
(checkerRan = false), the analysis diagnostics contain only the resolver
error, and running the checker alone on the same module would have added
an unknown-return-type diagnostic - so the checker demonstrably did not
run. -/
theorem c3_counterexample_checker_skipped :
    (resolveModule M3 (initRState [])).errs = [.undeclaredIdent "y"] ∧
    (analyze M3 []).checkerRan = false ∧
    (analyze M3 []).diags = [.undeclaredIdent "y"] ∧
    checkModule M3 (analyze M3 []).globalScope [] =
      [.unknownReturnType "Bogus" "f"] := by
  refine ⟨by decide, by decide, by decide, by decide⟩

/-- C3 (amended): for every parsed module the resolver phase always runs
(and, being a total traversal, completes); the type checker runs exactly
when name resolution recorded no new errors; and IR emission (phase 4 of
the driver) is reached only when the recorded error count is zero. -/
theorem c3_amended_phase_gating (parseDiags : List Diag) (m : Module) :
    (analyze m parseDiags).resolverRan = true ∧
    ((analyze m parseDiags).checkerRan = true ↔
      ¬ parseDiags.length <
        (resolveModule m (initRState parseDiags)).errs.length) ∧
    ((driverAfterParse parseDiags m).irRan = true →
      parseDiags = [] ∧ (analyze m parseDiags).diags = []) := by
  refine ⟨?_, ?_, ?_⟩
  · unfold analyze
    dsimp only
    split <;> rfl
  · unfold analyze
    dsimp only
    split
    · next h => simpa using h
    · next h => simpa using h
  · intro hir
    unfold driverAfterParse at hir
    split at hir
    · simp at hir
    · next hp =>
      have hpd : parseDiags = [] := by
        simpa using List.eq_nil_of_length_eq_zero (by omega)
      refine ⟨hpd, ?_⟩
      dsimp only at hir
      split at hir
      · simp at hir
      · next hok =>
        simp only [Bool.not_eq_true, Bool.not_eq_false] at hok
        unfold analyze at hok ⊢
        dsimp only at hok ⊢
        split at hok
        · simp at hok
        · have hlen : (checkModule m ((resolveModule m
              (initRState parseDiags)).scopes.getLast?.getD [])
              (resolveModule m (initRState parseDiags)).errs).length =
              parseDiags.length := by
            simpa using hok
          split
          · next h2 => omega
          · subst hpd
            exact List.eq_nil_of_length_eq_zero (by simpa using hlen)

/-- A module that compiles cleanly, used to instantiate C3 amended. -/
def mainOk : FuncData where
  name := "main"
  returnType := some (.named ["Void"])
  body := some []

def MOk : Module where
  declarations := [.funcD mainOk]

/-- C3 witness: the amended statement applied to the empty diagnostic list
and the cleanly compiling module MOk, all hypotheses discharged there. -/
theorem c3_amended_witness :
    (analyze MOk []).resolverRan = true ∧
    (analyze MOk []).checkerRan = true ∧
    ((driverAfterParse [] MOk).irRan = true →
      ([] : List Diag) = [] ∧ (analyze MOk []).diags = []) ∧
    (driverAfterParse [] MOk).irRan = true := by
  have h := c3_amended_phase_gating [] MOk
  exact ⟨h.1, h.2.1.mpr (by decide), h.2.2, by decide⟩

/-! ## C7 - the token stream ends in EOF when lexAll returns -/

/-- C7 counterexample: the claim says lexAll terminates and returns a
token sequence ending in EOF for every source string; on the source 0b
the binary scanner finds end of input, skips the missing-digit check (it
is guarded by !isAtEnd()), and std::stoll("") throws, so lexAll throws
instead of returning a token sequence at all. -/
theorem c7_counterexample_lexAll_throws :
    lexAllString "0b" = .error "invalid_argument: stoll" := by
  simp +decide [lexAllString, lexAll, lexAllLoop, nextToken, initLexState,
    skipWhitespace, advanceL, lexNumber, peekc, peekNext, atEnd, binLoop,
    makeToken, slice, cleanFrom2, stollE, lexDecimal, decLoop]

/-- Shape invariant of the lexAll loop: a successful run extends the
accumulator and ends with exactly one EOF token, in last position. -/
theorem lexAllLoop_shape (src : List Char) :
    ∀ (n : Nat) (st : LexState) (acc : List Token) (ds0 : List Diag)
      (ts : List Token) (st' : LexState) (ds : List Diag),
      lexAllLoop src n st acc ds0 = .ok (ts, st', ds) →
      (∀ t ∈ acc, t.kind ≠ .Eof) →
      ts ≠ [] ∧ (∃ tl, ts.getLast? = some tl ∧ tl.kind = .Eof) ∧
        ∀ t ∈ ts.dropLast, t.kind ≠ .Eof := by
  intro n
  induction n with
  | zero => intro st acc ds0 ts st' ds h; simp [lexAllLoop] at h
  | succ n ih =>
    intro st acc ds0 ts st' ds h hacc
    rw [lexAllLoop] at h
    split at h
    · simp at h
    · next t st1 ds1 heq =>
      split at h
      · next hk =>
        simp only [Except.ok.injEq, Prod.mk.injEq] at h
        obtain ⟨hts, -, -⟩ := h
        subst hts
        refine ⟨by simp, ⟨t, ?_, hk⟩, ?_⟩
        · simp
        · intro x hx
          rw [List.dropLast_concat] at hx
          exact hacc x hx
      · next hk =>
        refine ih st1 (acc ++ [t]) (ds0 ++ ds1) ts st' ds h ?_
        intro x hx
        rcases List.mem_append.mp hx with hx1 | hx2
        · exact hacc x hx1
        · simp at hx2; subst hx2; exact hk

/-- C7 (amended): whenever lexAll returns normally (it can instead throw
out of std::stoll, see the counterexample), the returned token sequence is
non-empty, its last token has kind EOF, and EOF occurs only in last
position. -/
theorem c7_amended_lexAll_ends_in_eof (src : List Char) (st0 : LexState)
    (ts : List Token) (st' : LexState) (ds : List Diag)
    (h : lexAll src st0 = .ok (ts, st', ds)) :
    ts ≠ [] ∧ (∃ tl, ts.getLast? = some tl ∧ tl.kind = .Eof) ∧
      ∀ t ∈ ts.dropLast, t.kind ≠ .Eof := by
  exact lexAllLoop_shape src (src.length + 2) st0 [] [] ts st' ds h
    (by intro t ht; simp at ht)

/-- The token list produced for the one-character source a. -/
def tokensOfA : List Token :=
  [{ kind := .Identifier, text := ['a'], line := 1, column := 1,
     offset := 0, intValue := 0, floatText := [] },
   { kind := .Eof, text := [], line := 1, column := 2, offset := 1,
     intValue := 0, floatText := [] }]

/-- The lexer state after lexing the one-character source a. -/
def stateAfterA : LexState :=
  { current := 1, tokenStart := 1, line := 1, column := 2, tokenLine := 1,
    tokenColumn := 2, hasPeeked := false, peekedToken := {} }

/-- C7 witness: the amended statement at the concrete source a, whose
lexAll run succeeds with an Identifier token followed by EOF. -/
theorem c7_amended_witness :
    lexAll "a".toList initLexState = .ok (tokensOfA, stateAfterA, []) ∧
    tokensOfA ≠ [] ∧
    (∃ tl, tokensOfA.getLast? = some tl ∧ tl.kind = .Eof) ∧
    ∀ t ∈ tokensOfA.dropLast, t.kind ≠ .Eof := by
  have h : lexAll "a".toList initLexState = .ok (tokensOfA, stateAfterA, []) := by
    simp +decide [lexAll, lexAllLoop, nextToken, initLexState,
      skipWhitespace, advanceL, peekc, peekNext, atEnd, identLoop,
      lexIdentifierOrKeyword, makeToken, slice, identifierKind, tokensOfA,
      stateAfterA, List.asString]
  have h2 := c7_amended_lexAll_ends_in_eof "a".toList initLexState
    tokensOfA stateAfterA [] h
  exact ⟨h, h2.1, h2.2.1, h2.2.2⟩

/-! ## C10 - escapes and newlines in string literals -/

/-- Specification-side outcome of scanning a string-literal body. -/
inductive StrOutcome where
  | closedO
  | newlineO
  | eofO
  deriving DecidableEq, Repr

/-! Specification-side scan of the characters after the opening quote:
the first unescaped quote closes the literal, a backslash always consumes
the following character, the first unescaped newline is the newline error,
running out of characters is the plain unterminated error. -/
mutual

def specStringScan : List Char → StrOutcome
  | [] => .eofO
  | c :: rest =>
    if c = '"' then .closedO
    else if c = '\\' then specAfterEscape rest
    else if c = '\n' then .newlineO
    else specStringScan rest

/-- After a backslash: the next character (even a newline) is consumed as
part of the escape; a backslash at the very end leaves the literal
unterminated. -/
def specAfterEscape : List Char → StrOutcome
  | [] => .eofO
  | _ :: rest2 => specStringScan rest2

end

/-- Diagnostics each scan outcome produces in lexString. -/
def StrOutcome.diags : StrOutcome → List Diag
  | .closedO => []
  | .newlineO => [.newlineInString]
  | .eofO => [.unterminatedString]

/-- Outcome kind of the embedded string-body loop. -/
def StrScan.kind : StrScan → StrOutcome
  | .closed _ => .closedO
  | .newlineAt _ => .newlineO
  | .eofAt _ => .eofO

theorem stringLoop_spec (src : List Char) (st : LexState) :
    (stringLoop src st).kind = specStringScan (src.drop st.current) := by
  induction st using stringLoop.induct src with
  | case1 st h hq =>
    rw [stringLoop, dif_pos h, if_pos hq]
    rw [List.drop_eq_getElem_cons h]
    rw [List.getD_eq_getElem src '\x00' h] at hq
    rw [hq]
    simp only [specStringScan, StrScan.kind, if_pos]
  | case2 st h hq hbs hend =>
    rw [stringLoop, dif_pos h, if_neg hq, if_pos hbs, if_pos hend]
    rw [List.drop_eq_getElem_cons h]
    rw [List.getD_eq_getElem src '\x00' h] at hq hbs
    have hrest : src.drop (st.current + 1) = [] := by
      simp only [atEnd, advanceL_current, decide_eq_true_eq] at hend
      rw [List.drop_eq_nil_iff]
      omega
    rw [hrest]
    simp only [specStringScan, if_neg hq, if_pos hbs, specAfterEscape,
      StrScan.kind]
  | case3 st h hq hbs hend ih =>
    rw [stringLoop, dif_pos h, if_neg hq, if_pos hbs, if_neg hend]
    rw [List.drop_eq_getElem_cons h]
    rw [List.getD_eq_getElem src '\x00' h] at hq hbs
    have hlt : st.current + 1 < src.length := by
      simp only [atEnd, advanceL_current, decide_eq_true_eq, not_le]
        at hend
      omega
    rw [List.drop_eq_getElem_cons hlt]
    have hcur : ((advanceL src (advanceL src st).2).2).current =
        st.current + 2 := by
      rw [advanceL_current, advanceL_current]
    rw [hcur] at ih
    simp only [specStringScan, if_neg hq, if_pos hbs, specAfterEscape]
    exact ih
  | case4 st h hq hbs hnl =>
    rw [stringLoop, dif_pos h, if_neg hq, if_neg hbs, if_pos hnl]
    rw [List.drop_eq_getElem_cons h]
    rw [List.getD_eq_getElem src '\x00' h] at hq hbs hnl
    simp only [specStringScan, if_neg hq, if_neg hbs, if_pos hnl,
      StrScan.kind]
  | case5 st h hq hbs hnl ih =>
    rw [stringLoop, dif_pos h, if_neg hq, if_neg hbs, if_neg hnl]
    rw [List.drop_eq_getElem_cons h]
    rw [List.getD_eq_getElem src '\x00' h] at hq hbs hnl
    rw [advanceL_current] at ih
    simp only [specStringScan, if_neg hq, if_neg hbs, if_neg hnl]
    exact ih
  | case6 st h =>
    rw [stringLoop, dif_neg h]
    have hnil : src.drop st.current = [] := by
      rw [List.drop_eq_nil_iff]
      omega
    rw [hnil]
    simp only [specStringScan, StrScan.kind]

/-- C10: while lexing a string literal a backslash unconditionally
consumes the immediately following character, so a backslash-newline pair
continues the literal on the next line; the
unterminated-string (newline in string) diagnostic is emitted exactly when
an unescaped newline appears among the characters following the opening
quote before any closing quote; the other diagnostic outcomes are running
off the end of the input (plain unterminated) and none at all (closed).
The second conjunct exhibits a literal containing an escaped newline that
lexes successfully as a single StringLiteral token with no diagnostics. -/
theorem c10_string_newline_characterization :
    (∀ (src : List Char) (st : LexState),
      (lexString src st).2.2 =
        (specStringScan (src.drop (st.current + 1))).diags) ∧
    ((lexAllString "\"a\\\nb\"").map
        (fun r => (r.1.map (fun t => t.kind), r.2.2)) =
      .ok ([.StringLiteral, .Eof], [])) := by
  constructor
  · intro src st
    have hk := stringLoop_spec src (advanceL src st).2
    rw [advanceL_current] at hk
    unfold lexString
    rcases hscan : stringLoop src (advanceL src st).2 with st2 | st2 | st2 <;>
      rw [hscan] at hk <;>
      simp only [StrScan.kind] at hk <;>
      simp [hscan, ← hk, StrOutcome.diags, errorToken]
  · simp +decide [lexAllString, lexAll, lexAllLoop, nextToken, initLexState,
      skipWhitespace, advanceL, peekc, peekNext, atEnd, lexString,
      stringLoop, makeToken, slice, errorToken, Except.map]

/-! ## C9 - implicit returns for function bodies that fall off the end -/

/-- A state whose insert block is an empty, unterminated basic block,
used to instantiate C9. -/
def stOneEmptyBlock : EmitState :=
  { blocks := [(0, { name := "entry", instrs := [] })], insertPt := 0,
    nextId := 1 }

/-- C9: for every function declaration with a body, after emitting all
body statements the emitter inspects the current basic block; when it has
no terminator it appends an implicit return - ret void when the lowered
return type is void, and a return of the zero value of the lowered return
type otherwise - and when it already has a terminator nothing is added.
The third conjunct shows emitFuncDecl is exactly declare, body emission,
then this implicit-return step (followed by the name-map restore). -/
theorem c9_implicit_return :
    (∀ (rt : LLVMType) (st : EmitState), st.noTerminator = true →
      addImplicitReturn rt st =
        (if rt.isVoidTy then st.emit .retVoid
         else st.emit (.retV { ty := rt, k := .nullV }))) ∧
    (∀ (rt : LLVMType) (st : EmitState), st.noTerminator = false →
      addImplicitReturn rt st = st) ∧
    (∀ (fd : FuncData) (body : List Stmt) (st : EmitState),
      fd.body = some body →
      emitFuncDecl fd st =
        { addImplicitReturn (lowerRetTy fd)
            (emitFuncBody fd body (declareFunc fd st)) with
          namedValues := (declareFunc fd st).namedValues }) := by
  refine ⟨?_, ?_, ?_⟩
  · intro rt st h
    unfold addImplicitReturn
    rw [if_pos h]
  · intro rt st h
    unfold addImplicitReturn
    rw [if_neg (by simp [h])]
  · intro fd body st hb
    unfold emitFuncDecl
    rw [hb]

/-- C9 witness: a non-void (Int32) function body that falls off the end
of an unterminated block receives a return of the zero value of i32. -/
theorem c9_implicit_return_witness :
    stOneEmptyBlock.noTerminator = true ∧
    addImplicitReturn (.intT 32) stOneEmptyBlock =
      stOneEmptyBlock.emit (.retV { ty := .intT 32, k := .nullV }) ∧
    addImplicitReturn .voidT stOneEmptyBlock =
      stOneEmptyBlock.emit .retVoid := by
  refine ⟨rfl, ?_, ?_⟩
  · exact (c9_implicit_return.1 (.intT 32) stOneEmptyBlock rfl).trans rfl
  · exact (c9_implicit_return.1 .voidT stOneEmptyBlock rfl).trans rfl

/-! ## C5 - break and continue versus the loop context stack -/

theorem loopStack_emit (st : EmitState) (i : Instr) :
    (st.emit i).loopStack = st.loopStack := rfl

theorem loopStack_fresh (st : EmitState) :
    st.fresh.2.loopStack = st.loopStack := rfl

theorem loopStack_setInsertPoint (st : EmitState) (n : Nat) :
    (st.setInsertPoint n).loopStack = st.loopStack := rfl

theorem loopStack_setNamed (st : EmitState) (n : String)
    (slot : Nat × LLVMType) : (st.setNamed n slot).loopStack = st.loopStack :=
  rfl

theorem loopStack_modifyLastFunc (st : EmitState) (f : IRFunc → IRFunc) :
    (st.modifyLastFunc f).loopStack = st.loopStack := by
  unfold EmitState.modifyLastFunc
  split <;> rfl

theorem loopStack_attachBlock (st : EmitState) (id : Nat) :
    (st.attachBlock id).loopStack = st.loopStack :=
  loopStack_modifyLastFunc st _

theorem loopStack_newBlock (st : EmitState) (n : String) (a : Bool) :
    (st.newBlock n a).2.loopStack = st.loopStack := by
  unfold EmitState.newBlock
  dsimp only
  split
  · rw [loopStack_attachBlock]
    rfl
  · rfl

theorem loopStack_createEntryBlockAlloca (st : EmitState) (n : String)
    (ty : LLVMType) :
    (createEntryBlockAlloca st n ty).2.loopStack = st.loopStack := rfl

theorem loopStack_coerceIntPair (st : EmitState) (l r : Value) :
    (coerceIntPair st l r).2.2.loopStack = st.loopStack := by
  unfold coerceIntPair
  dsimp only
  split
  · split <;> rfl
  · rfl

theorem loopStack_emitBinopInstr (st : EmitState) (op : BinaryOp)
    (l r : Value) : (emitBinopInstr st op l r).2.loopStack = st.loopStack := by
  cases op <;> rfl

mutual

/-- Every expression is emitted with no net change to the loop context
stack. -/
theorem emitExpr_loopStack (e : Expr) (st : EmitState) :
    (emitExpr e st).2.loopStack = st.loopStack := by
  cases e with
  | intLit v => rfl
  | floatLit t => rfl
  | stringLit v => rfl
  | charLit v => rfl
  | boolLit b => rfl
  | ident n =>
    simp only [emitExpr]
    repeat' split
    all_goals rfl
  | path p => rfl
  | binary op l r =>
    have hl := fun s => emitExpr_loopStack l s
    have hr := fun s => emitExpr_loopStack r s
    simp only [emitExpr]
    repeat' split
    all_goals simp [loopStack_emitBinopInstr, loopStack_coerceIntPair, hr, hl]
  | unary op e =>
    have he := fun s => emitExpr_loopStack e s
    simp only [emitExpr]
    repeat' split
    all_goals simp [loopStack_emit, loopStack_fresh, he]
  | call callee args =>
    have ha := fun s => emitCallArgs_loopStack args s
    simp only [emitExpr]
    repeat' split
    all_goals simp [loopStack_emit, loopStack_fresh, ha]
  | methodCall o m a => rfl
  | memberAccess o f => rfl
  | indexE o i => rfl
  | cast e t => rfl
  | blockE stmts finalExpr =>
    exact (emitOptExpr_loopStack finalExpr (emitStmtList stmts st)).trans
      (emitStmtList_loopStack stmts st)
  | ifE c t e =>
    have hc := fun s => emitExpr_loopStack c s
    have ht := fun s => emitExpr_loopStack t s
    have he := fun s => emitOptExpr_loopStack e s
    simp only [emitExpr]
    repeat' split
    all_goals simp [loopStack_emit, loopStack_fresh, loopStack_newBlock,
      loopStack_setInsertPoint, loopStack_attachBlock, hc, ht, he]
  | matchE s arms => rfl
  | closure p r b => rfl
  | construct p a => rfl
  | structLit n f => rfl
  | tuple es => rfl
  | arrayE es => rfl
  | range l u i => rfl
  | refE e => rfl
  | mutRef e => rfl
  | move e => rfl
  | await e => rfl
  | tryE e => rfl
  | assign t v =>
    have hv := fun s => emitExpr_loopStack v s
    simp only [emitExpr]
    repeat' split
    all_goals simp [loopStack_emit, hv]
  | compoundAssign o t v => rfl

theorem emitOptExpr_loopStack (e : Option Expr) (st : EmitState) :
    (emitOptExpr e st).2.loopStack = st.loopStack := by
  cases e with
  | none => rfl
  | some e => exact emitExpr_loopStack e st

theorem emitCallArgs_loopStack (es : List Expr) (st : EmitState) :
    (emitCallArgs es st).2.loopStack = st.loopStack := by
  cases es with
  | nil => rfl
  | cons e rest =>
    have he := fun s => emitExpr_loopStack e s
    have hr := fun s => emitCallArgs_loopStack rest s
    simp only [emitCallArgs]
    repeat' split
    all_goals simp [he, hr]

/-- Every statement is emitted with no net change to the loop context
stack: the loop emitters pop exactly the pair they pushed, and nothing
else touches the stack. -/
theorem emitStmt_loopStack (s : Stmt) (st : EmitState) :
    (emitStmt s st).loopStack = st.loopStack := by
  cases s with
  | letS name type initializer tr =>
    cases initializer with
    | none =>
      simp only [emitStmt]
      repeat' split
      all_goals rfl
    | some init =>
      have hi := fun s => emitExpr_loopStack init s
      simp only [emitStmt]
      repeat' split
      all_goals simp [loopStack_emit, loopStack_fresh, loopStack_setNamed,
        loopStack_createEntryBlockAlloca, hi]
  | constS n t v => rfl
  | returnS value =>
    cases value with
    | none => rfl
    | some v =>
      have hv := fun s => emitExpr_loopStack v s
      simp only [emitStmt]
      repeat' split
      all_goals simp [loopStack_emit, hv]
  | ifS c t e =>
    have hc := fun s => emitExpr_loopStack c s
    have ht := fun s => emitStmt_loopStack t s
    cases e with
    | none =>
      simp only [emitStmt]
      repeat' split
      all_goals simp [loopStack_emit, loopStack_fresh, loopStack_newBlock,
        loopStack_setInsertPoint, loopStack_attachBlock, hc, ht]
    | some eb =>
      have he := fun s => emitStmt_loopStack eb s
      simp only [emitStmt]
      repeat' split
      all_goals simp [loopStack_emit, loopStack_fresh, loopStack_newBlock,
        loopStack_setInsertPoint, loopStack_attachBlock, hc, ht, he]
  | matchS s arms => rfl
  | forS v t it body =>
    have hb := fun s => emitStmt_loopStack body s
    simp only [emitStmt]
    repeat' split
    all_goals simp [loopStack_emit, loopStack_newBlock,
      loopStack_setInsertPoint, loopStack_attachBlock, hb]
  | whileS c body =>
    have hc := fun s => emitExpr_loopStack c s
    have hb := fun s => emitStmt_loopStack body s
    simp only [emitStmt]
    repeat' split
    all_goals simp [loopStack_emit, loopStack_newBlock,
      loopStack_setInsertPoint, loopStack_attachBlock, hc, hb]
  | loopS body =>
    have hb := fun s => emitStmt_loopStack body s
    simp only [emitStmt]
    repeat' split
    all_goals simp [loopStack_emit, loopStack_newBlock,
      loopStack_setInsertPoint, loopStack_attachBlock, hb]
  | breakS =>
    simp only [emitStmt]
    split <;> rfl
  | continueS =>
    simp only [emitStmt]
    split <;> rfl
  | blockS ss => exact emitStmtList_loopStack ss st
  | exprS e => exact emitExpr_loopStack e st

theorem emitStmtList_loopStack (ss : List Stmt) (st : EmitState) :
    (emitStmtList ss st).loopStack = st.loopStack := by
  cases ss with
  | nil => rfl
  | cons s rest =>
    exact (emitStmtList_loopStack rest (emitStmt s st)).trans
      (emitStmt_loopStack s st)

end

/-- A module whose single function body is a bare break statement outside
any loop. -/
def M5 : Module where
  name := "m5"
  declarations := [.funcD { name := "f", body := some [.breakS] }]

/-- A function whose while-loop body is a single break statement. -/
def fD5w : FuncData where
  name := "g"
  body := some [.whileS (.boolLit true) .breakS]

/-- A state inside two nested loops: the innermost loop pushed the pair
(7, 9) (exit block 7, continue target 9) on top of the outer (3, 4). -/
def stLoop : EmitState := { loopStack := [(7, 9), (3, 4)] }

/-- C5: inside a loop, break and continue branch through the loop context
stack - break to the first component (the exit block) and continue to the
second (the continue target) of the innermost entry, which is the head of
the stack; outside any loop (empty stack) both are silently dropped with
no instruction and no state change; and every statement leaves the stack
as it found it, so the head seen by a break is the pair pushed by the
innermost enclosing loop.  The claim's second half - that a phase before
IR emission rejects break/continue outside loops - is refuted separately
by the counterexample. -/
theorem c5_amended_break_continue :
    (∀ (st : EmitState) (b k : Nat) (rest : List (Nat × Nat)),
        st.loopStack = (b, k) :: rest →
        emitStmt .breakS st = st.emit (.br b) ∧
        emitStmt .continueS st = st.emit (.br k)) ∧
    (∀ st : EmitState, st.loopStack = [] →
        emitStmt .breakS st = st ∧ emitStmt .continueS st = st) ∧
    (∀ (s : Stmt) (st : EmitState),
        (emitStmt s st).loopStack = st.loopStack) := by
  refine ⟨?_, ?_, fun s st => emitStmt_loopStack s st⟩
  · intro st b k rest h
    constructor
    · simp only [emitStmt]
      simp [h]
    · simp only [emitStmt]
      simp [h]
  · intro st h
    constructor
    · simp only [emitStmt]
      simp [h]
    · simp only [emitStmt]
      simp [h]

/-- C5 counterexample: a module whose function body is a break statement
outside any loop.  Sema::analyze succeeds with no diagnostic (neither the
resolver nor the type checker inspects loop context), the driver proceeds
to IR emission, and the emitter records no diagnostic either - it silently
drops the break, so the body compiles to just the implicit ret void.  No
phase before IR emission records an error, contradicting the claim. -/
theorem c5_counterexample_break_outside_loop :
    (analyze M5 []).ok = true ∧ (analyze M5 []).diags = [] ∧
    (driverAfterParse [] M5).irRan = true ∧
    (emitDecls M5.declarations {}).diags = [] ∧
    ((emitDecls M5.declarations {}).getBlock 0).instrs = [Instr.retVoid] :=
  ⟨rfl, rfl, rfl, rfl, rfl⟩

/-- C5 witness: with the innermost loop entry (7, 9) on the stack, break
branches to block 7 and continue to block 9; with an empty stack both are
no-ops; and in a concrete function whose while body is a break, the
while.body block ends in a branch to the while.exit block. -/
theorem c5_amended_witness :
    stLoop.loopStack = (7, 9) :: [(3, 4)] ∧
    (emitStmt .breakS stLoop = stLoop.emit (.br 7) ∧
     emitStmt .continueS stLoop = stLoop.emit (.br 9)) ∧
    (emitStmt .breakS ({} : EmitState) = {} ∧
     emitStmt .continueS ({} : EmitState) = {}) ∧
    ((emitFuncDecl fD5w {}).getBlock 2).name = "while.body" ∧
    ((emitFuncDecl fD5w {}).getBlock 2).instrs = [.br 3] ∧
    ((emitFuncDecl fD5w {}).getBlock 3).name = "while.exit" :=
  ⟨rfl, c5_amended_break_continue.1 stLoop 7 9 [(3, 4)] rfl,
   c5_amended_break_continue.2.1 {} rfl, rfl, rfl, rfl⟩

/-! ## C2 - resolved identifiers after successful resolution

The resolver state is related to the specification-side environment by
projecting every frame to its declared names. -/

/-- Names visible in each scope of a resolver scope chain. -/
def envOf (scopes : List Frame) : SpecEnv :=
  scopes.map (fun f => f.map Prod.fst)

theorem frameLookup_isSome (f : Frame) (n : String) :
    (frameLookup f n).isSome = (f.map Prod.fst).contains n := by
  induction f with
  | nil => rfl
  | cons p f ih =>
    by_cases h : p.1 = n
    · simp [frameLookup, List.find?_cons, h]
    · simp only [frameLookup, List.find?_cons] at ih ⊢
      simp [h, ih, frameLookup, Ne.symm h]

theorem scopesLookup_isSome (scopes : List Frame) (n : String) :
    (scopesLookup scopes n).isSome = specLookup (envOf scopes) n := by
  induction scopes with
  | nil => rfl
  | cons f rest ih =>
    simp only [scopesLookup, specLookup, envOf, List.map_cons, List.any_cons]
    cases hf : frameLookup f n with
    | some s =>
      have : (frameLookup f n).isSome = true := by rw [hf]; rfl
      rw [frameLookup_isSome] at this
      simp only [this, Bool.true_or, Option.isSome_some]
    | none =>
      have : (frameLookup f n).isSome = false := by rw [hf]; rfl
      rw [frameLookup_isSome] at this
      simp only [this, Bool.false_or]
      exact ih

theorem frameInsert_names (f : Frame) (n : String) (s : Symbol) :
    (frameInsert f n s).2.map Prod.fst = specFrameAdd (f.map Prod.fst) n := by
  unfold frameInsert specFrameAdd
  rw [← frameLookup_isSome]
  by_cases h : (frameLookup f n).isSome
  · simp [h]
  · simp [h]

theorem insertCurrent_env (st : RState) (n : String) (sym : Symbol)
    (d : Diag) :
    envOf (insertCurrent st n sym d).scopes = specAdd (envOf st.scopes) n := by
  cases hs : st.scopes with
  | nil => simp [insertCurrent, hs, envOf, specAdd]
  | cons f rest =>
    simp [insertCurrent, hs, envOf, specAdd, frameInsert_names]

theorem insertCurrent_tail (st : RState) (n : String) (sym : Symbol)
    (d : Diag) (fr : Frame) (rest : List Frame) (h : st.scopes = fr :: rest) :
    ∃ fr2, (insertCurrent st n sym d).scopes = fr2 :: rest :=
  ⟨(frameInsert fr n sym).2, by simp [insertCurrent, h]⟩

theorem insertCurrent_errs (st : RState) (n : String) (sym : Symbol)
    (d : Diag) : ∃ l, (insertCurrent st n sym d).errs = st.errs ++ l := by
  cases hs : st.scopes with
  | nil => exact ⟨[], by simp [insertCurrent, hs]⟩
  | cons f rest =>
    exact ⟨(if (frameInsert f n sym).1 = true then [] else [d]),
      by simp [insertCurrent, hs]⟩

theorem insertQuiet_env (st : RState) (n : String) (sym : Symbol) :
    envOf (insertQuiet st n sym).scopes = specAdd (envOf st.scopes) n := by
  cases hs : st.scopes with
  | nil => simp [insertQuiet, hs, envOf, specAdd]
  | cons f rest =>
    simp [insertQuiet, hs, envOf, specAdd, frameInsert_names]

theorem insertQuiet_tail (st : RState) (n : String) (sym : Symbol)
    (fr : Frame) (rest : List Frame) (h : st.scopes = fr :: rest) :
    ∃ fr2, (insertQuiet st n sym).scopes = fr2 :: rest :=
  ⟨(frameInsert fr n sym).2, by simp [insertQuiet, h]⟩

theorem insertQuiet_errs (st : RState) (n : String) (sym : Symbol) :
    (insertQuiet st n sym).errs = st.errs := by
  cases hs : st.scopes with
  | nil => simp [insertQuiet, hs]
  | cons f rest => simp [insertQuiet, hs]

theorem enterScope_env (st : RState) :
    envOf (enterScope st).scopes = [] :: envOf st.scopes := rfl

theorem exitScope_env (st : RState) :
    envOf (exitScope st).scopes = (envOf st.scopes).tail := by
  cases hs : st.scopes with
  | nil => simp [exitScope, hs, envOf]
  | cons f rest => simp [exitScope, hs, envOf]

/-- Correctness shape for resolver expression walks: scopes are preserved
exactly, errors only accumulate, and an error-free walk means the
spec-side checker finds no unresolved identifier. -/
def EOKP (f : RState → RState) (g : SpecEnv → List String) : Prop :=
  ∀ st : RState, (f st).scopes = st.scopes ∧
    ∃ l, (f st).errs = st.errs ++ l ∧ (l = [] → g (envOf st.scopes) = [])

/-- Correctness shape for resolver statement walks: the parent chain is
preserved (only the current frame may change), the visible names evolve as
the spec-side checker says, errors only accumulate, and an error-free walk
means the checker finds no unresolved identifier. -/
def SOKP (f : RState → RState) (g : SpecEnv → SpecEnv × List String) :
    Prop :=
  ∀ st : RState,
    (∀ fr rest, st.scopes = fr :: rest → ∃ fr2, (f st).scopes = fr2 :: rest) ∧
    envOf (f st).scopes = (g (envOf st.scopes)).1 ∧
    ∃ l, (f st).errs = st.errs ++ l ∧ (l = [] → (g (envOf st.scopes)).2 = [])

theorem spec_comp2 {f1 f2 : RState → RState}
    {g1 g2 : SpecEnv → List String} (h1 : EOKP f1 g1) (h2 : EOKP f2 g2) :
    EOKP (fun st => f2 (f1 st))
      (fun env => g1 env ++ g2 env) := by
  intro st
  obtain ⟨hs1, l1, he1, hi1⟩ := h1 st
  obtain ⟨hs2, l2, he2, hi2⟩ := h2 (f1 st)
  refine ⟨hs2.trans hs1, l1 ++ l2,
    by rw [he2, he1, List.append_assoc], ?_⟩
  intro h
  obtain ⟨e1, e2⟩ := List.append_eq_nil.mp h
  rw [hs1] at hi2
  simp [hi1 e1, hi2 e2]

theorem sok_comp {f1 f2 : RState → RState}
    {g1 g2 : SpecEnv → SpecEnv × List String}
    (h1 : SOKP f1 g1) (h2 : SOKP f2 g2) :
    SOKP (fun st => f2 (f1 st))
      (fun env => ((g2 (g1 env).1).1, (g1 env).2 ++ (g2 (g1 env).1).2)) := by
  intro st
  dsimp only
  obtain ⟨hsh1, hv1, l1, he1, hi1⟩ := h1 st
  obtain ⟨hsh2, hv2, l2, he2, hi2⟩ := h2 (f1 st)
  rw [hv1] at hv2 hi2
  refine ⟨?_, hv2, l1 ++ l2, by rw [he2, he1, List.append_assoc], ?_⟩
  · intro fr rest h
    obtain ⟨fr1, h1x⟩ := hsh1 fr rest h
    exact hsh2 fr1 rest h1x
  · intro h
    obtain ⟨e1, e2⟩ := List.append_eq_nil.mp h
    simp [hi1 e1, hi2 e2]

/-- Composition of a scope-preserving expression walk with a statement
walk. -/
theorem sok_expr_stmt {fe fs : RState → RState}
    {ge : SpecEnv → List String} {gs : SpecEnv → SpecEnv × List String}
    (he : EOKP fe ge) (hs : SOKP fs gs) :
    SOKP (fun st => fs (fe st))
      (fun env => ((gs env).1, ge env ++ (gs env).2)) := by
  intro st
  dsimp only
  obtain ⟨hs1, l1, he1, hi1⟩ := he st
  obtain ⟨hsh2, hv2, l2, he2, hi2⟩ := hs (fe st)
  rw [hs1] at hv2 hi2
  refine ⟨?_, hv2, l1 ++ l2, by rw [he2, he1, List.append_assoc], ?_⟩
  · intro fr rest h
    exact hsh2 fr rest (hs1.trans h)
  · intro h
    obtain ⟨e1, e2⟩ := List.append_eq_nil.mp h
    simp [hi1 e1, hi2 e2]

theorem closureParamsInsert_spec (ps : List ClosureParam) (st : RState)
    (fr : Frame) (rest : List Frame) (h : st.scopes = fr :: rest) :
    ∃ fr2, (closureParamsInsert ps st).scopes = fr2 :: rest ∧
      fr2.map Prod.fst = closureNames ps (fr.map Prod.fst) ∧
      (closureParamsInsert ps st).errs = st.errs := by
  induction ps generalizing st fr with
  | nil => exact ⟨fr, h, rfl, rfl⟩
  | cons p ps ih =>
    have hs1 : (insertQuiet st p.name { kind := .varS, name := p.name }).scopes
        = (frameInsert fr p.name { kind := .varS, name := p.name }).2
            :: rest := by
      simp [insertQuiet, h]
    obtain ⟨fr2, h1, h2, h3⟩ := ih _ _ hs1
    refine ⟨fr2, ?_, ?_, ?_⟩
    · simpa only [closureParamsInsert] using h1
    · rw [frameInsert_names] at h2
      simpa only [closureParamsInsert, closureNames] using h2
    · rw [insertQuiet_errs] at h3
      simpa only [closureParamsInsert] using h3

theorem genericParamsInsert_spec (gs : List GenericParam) (st : RState)
    (fr : Frame) (rest : List Frame) (h : st.scopes = fr :: rest) :
    ∃ fr2, (genericParamsInsert gs st).scopes = fr2 :: rest ∧
      fr2.map Prod.fst = specGenericNames gs (fr.map Prod.fst) ∧
      (genericParamsInsert gs st).errs = st.errs := by
  induction gs generalizing st fr with
  | nil => exact ⟨fr, h, rfl, rfl⟩
  | cons g gs ih =>
    have hs1 : (insertQuiet st g.name
          { kind := .genericParamS, name := g.name }).scopes
        = (frameInsert fr g.name
          { kind := .genericParamS, name := g.name }).2 :: rest := by
      simp [insertQuiet, h]
    obtain ⟨fr2, h1, h2, h3⟩ := ih _ _ hs1
    refine ⟨fr2, ?_, ?_, ?_⟩
    · simpa only [genericParamsInsert] using h1
    · rw [frameInsert_names] at h2
      simpa only [genericParamsInsert, specGenericNames] using h2
    · rw [insertQuiet_errs] at h3
      simpa only [genericParamsInsert] using h3

theorem funcParamsInsert_spec (ps : List FuncParam) (st : RState)
    (fr : Frame) (rest : List Frame) (h : st.scopes = fr :: rest) :
    ∃ fr2, (funcParamsInsert ps st).scopes = fr2 :: rest ∧
      fr2.map Prod.fst = specParamNames ps (fr.map Prod.fst) ∧
      (funcParamsInsert ps st).errs = st.errs := by
  induction ps generalizing st fr with
  | nil => exact ⟨fr, h, rfl, rfl⟩
  | cons p ps ih =>
    have hs1 : (insertQuiet st p.name { kind := .varS, name := p.name }).scopes
        = (frameInsert fr p.name { kind := .varS, name := p.name }).2
            :: rest := by
      simp [insertQuiet, h]
    obtain ⟨fr2, h1, h2, h3⟩ := ih _ _ hs1
    refine ⟨fr2, ?_, ?_, ?_⟩
    · simpa only [funcParamsInsert] using h1
    · rw [frameInsert_names] at h2
      simpa only [funcParamsInsert, specParamNames] using h2
    · rw [insertQuiet_errs] at h3
      simpa only [funcParamsInsert] using h3

theorem resolveEnumVariants_spec (en : String) (vs : List EnumVariant)
    (st : RState) :
    envOf (resolveEnumVariants en vs st).scopes
        = variantNamesAdd en vs (envOf st.scopes) ∧
    (resolveEnumVariants en vs st).errs = st.errs ∧
    (∀ fr rest, st.scopes = fr :: rest →
      ∃ fr2, (resolveEnumVariants en vs st).scopes = fr2 :: rest) := by
  induction vs generalizing st with
  | nil => exact ⟨rfl, rfl, fun fr rest h => ⟨fr, h⟩⟩
  | cons v vs ih =>
    obtain ⟨h1, h2, h3⟩ := ih
      (insertQuiet st v.name
        { kind := .enumVariantS, name := en ++ "::" ++ v.name })
    rw [insertQuiet_env] at h1
    rw [insertQuiet_errs] at h2
    refine ⟨?_, ?_, ?_⟩
    · simpa only [resolveEnumVariants, variantNamesAdd] using h1
    · simpa only [resolveEnumVariants] using h2
    · intro fr rest h
      obtain ⟨fr1, h1x⟩ := insertQuiet_tail st v.name _ fr rest h
      obtain ⟨fr2, h2x⟩ := h3 fr1 rest h1x
      exact ⟨fr2, by simpa only [resolveEnumVariants] using h2x⟩

theorem registerDecl_spec (d : Decl) (st : RState) :
    envOf (registerDecl d st).scopes
        = (match hoistedName d with
          | some n => specAdd (envOf st.scopes) n
          | none => envOf st.scopes) ∧
    (∃ l, (registerDecl d st).errs = st.errs ++ l) ∧
    (∀ fr rest, st.scopes = fr :: rest →
      ∃ fr2, (registerDecl d st).scopes = fr2 :: rest) := by
  cases d with
  | moduleD p =>
    exact ⟨rfl, ⟨[], by simp [registerDecl]⟩, fun fr rest h => ⟨fr, h⟩⟩
  | importD p a =>
    exact ⟨rfl, ⟨[], by simp [registerDecl]⟩, fun fr rest h => ⟨fr, h⟩⟩
  | funcD fd =>
    exact ⟨insertCurrent_env st fd.name _ _, insertCurrent_errs st fd.name _ _,
      fun fr rest h => insertCurrent_tail st fd.name _ _ fr rest h⟩
  | structD name g fl v =>
    exact ⟨insertCurrent_env st name _ _, insertCurrent_errs st name _ _,
      fun fr rest h => insertCurrent_tail st name _ _ fr rest h⟩
  | classD name g fl ms v =>
    exact ⟨insertCurrent_env st name _ _, insertCurrent_errs st name _ _,
      fun fr rest h => insertCurrent_tail st name _ _ fr rest h⟩
  | enumD name g vs v =>
    exact ⟨insertCurrent_env st name _ _, insertCurrent_errs st name _ _,
      fun fr rest h => insertCurrent_tail st name _ _ fr rest h⟩
  | traitD name g s ms v =>
    exact ⟨insertCurrent_env st name _ _, insertCurrent_errs st name _ _,
      fun fr rest h => insertCurrent_tail st name _ _ fr rest h⟩
  | implD t tr g ms =>
    exact ⟨rfl, ⟨[], by simp [registerDecl]⟩, fun fr rest h => ⟨fr, h⟩⟩
  | typeAliasD name g t v =>
    exact ⟨insertCurrent_env st name _ _, insertCurrent_errs st name _ _,
      fun fr rest h => insertCurrent_tail st name _ _ fr rest h⟩

theorem registerDecls_spec (ds : List Decl) (st : RState)
    (fr : Frame) (rest : List Frame) (h : st.scopes = fr :: rest) :
    ∃ fr2 l, (registerDecls ds st).scopes = fr2 :: rest ∧
      fr2.map Prod.fst = hoistNames ds (fr.map Prod.fst) ∧
      (registerDecls ds st).errs = st.errs ++ l := by
  induction ds generalizing st fr with
  | nil => exact ⟨fr, [], h, rfl, by simp [registerDecls]⟩
  | cons d ds ih =>
    obtain ⟨hv, ⟨l1, he1⟩, hsh⟩ := registerDecl_spec d st
    obtain ⟨fr1, h1⟩ := hsh fr rest h
    have hh : fr1.map Prod.fst = (match hoistedName d with
        | some n => specFrameAdd (fr.map Prod.fst) n
        | none => fr.map Prod.fst) := by
      rw [h1, h] at hv
      cases hd : hoistedName d with
      | some n =>
        rw [hd] at hv
        simp only [envOf, List.map_cons, specAdd, List.cons.injEq] at hv
        exact hv.1
      | none =>
        rw [hd] at hv
        simp only [envOf, List.map_cons, List.cons.injEq] at hv
        exact hv.1
    obtain ⟨fr2, l2, h2, h3, h4⟩ := ih (registerDecl d st) fr1 h1
    refine ⟨fr2, l1 ++ l2, ?_, ?_, ?_⟩
    · simpa only [registerDecls] using h2
    · rw [hh] at h3
      simpa only [registerDecls, hoistNames] using h3
    · rw [he1] at h4
      rw [List.append_assoc] at h4
      simpa only [registerDecls] using h4

theorem registerTraitMethods_spec (ms : List FuncData) (st : RState)
    (fr : Frame) (rest : List Frame) (h : st.scopes = fr :: rest) :
    ∃ fr2 l, (registerTraitMethods ms st).scopes = fr2 :: rest ∧
      (registerTraitMethods ms st).errs = st.errs ++ l := by
  induction ms generalizing st fr with
  | nil => exact ⟨fr, [], h, by simp [registerTraitMethods]⟩
  | cons m ms ih =>
    obtain ⟨hv, ⟨l1, he1⟩, hsh⟩ := registerDecl_spec (.funcD m) st
    obtain ⟨fr1, h1⟩ := hsh fr rest h
    obtain ⟨fr2, l2, h2, h4⟩ := ih (registerDecl (.funcD m) st) fr1 h1
    refine ⟨fr2, l1 ++ l2, ?_, ?_⟩
    · simpa only [registerTraitMethods] using h2
    · rw [he1] at h4
      rw [List.append_assoc] at h4
      simpa only [registerTraitMethods] using h4

mutual

/-- Every expression walk of the resolver preserves the scope chain, only
appends diagnostics, and, when it appends none, leaves no identifier that
the spec-side checker (in resolver-visited positions) finds unresolved. -/
theorem resolveExpr_spec (e : Expr) :
    EOKP (resolveExpr e) (specExpr false e) := by
  cases e with
  | intLit v =>
    intro st
    exact ⟨rfl, [], by rw [List.append_nil]; rfl, fun _ => rfl⟩
  | floatLit t =>
    intro st
    exact ⟨rfl, [], by rw [List.append_nil]; rfl, fun _ => rfl⟩
  | stringLit v =>
    intro st
    exact ⟨rfl, [], by rw [List.append_nil]; rfl, fun _ => rfl⟩
  | charLit v =>
    intro st
    exact ⟨rfl, [], by rw [List.append_nil]; rfl, fun _ => rfl⟩
  | boolLit b =>
    intro st
    exact ⟨rfl, [], by rw [List.append_nil]; rfl, fun _ => rfl⟩
  | path p =>
    intro st
    exact ⟨rfl, [], by rw [List.append_nil]; rfl, fun _ => rfl⟩
  | structLit n fields =>
    intro st
    refine ⟨rfl, [], by rw [List.append_nil]; rfl, fun _ => ?_⟩
    simp [specExpr]
  | ident n =>
    intro st
    simp only [resolveExpr, specExpr]
    cases hl : scopesLookup st.scopes n with
    | some s =>
      have hspec : specLookup (envOf st.scopes) n = true := by
        rw [← scopesLookup_isSome, hl]
        rfl
      exact ⟨rfl, [], by rw [List.append_nil], fun _ => by simp [hspec]⟩
    | none =>
      exact ⟨rfl, [.undeclaredIdent n], rfl,
        fun hc => (List.cons_ne_nil _ _ hc).elim⟩
  | binary op l r =>
    intro st
    simp only [resolveExpr, specExpr]
    exact spec_comp2 (resolveExpr_spec l) (resolveExpr_spec r) st
  | unary op e =>
    intro st
    simp only [resolveExpr, specExpr]
    exact resolveExpr_spec e st
  | call callee args =>
    intro st
    simp only [resolveExpr, specExpr]
    exact spec_comp2 (resolveExpr_spec callee) (resolveExprList_spec args) st
  | methodCall obj m args =>
    intro st
    simp only [resolveExpr, specExpr]
    exact spec_comp2 (resolveExpr_spec obj) (resolveExprList_spec args) st
  | memberAccess obj f =>
    intro st
    simp only [resolveExpr, specExpr]
    exact resolveExpr_spec obj st
  | indexE obj ix =>
    intro st
    simp only [resolveExpr, specExpr]
    exact spec_comp2 (resolveExpr_spec obj) (resolveExpr_spec ix) st
  | cast e t =>
    intro st
    simp only [resolveExpr, specExpr]
    exact resolveExpr_spec e st
  | blockE stmts finalExpr =>
    intro st
    simp only [resolveExpr, specExpr]
    obtain ⟨hsh1, hv1, l1, he1, hi1⟩ :=
      resolveStmtList_spec stmts (enterScope st)
    obtain ⟨hs2, l2, he2, hi2⟩ :=
      resolveOptExpr_spec finalExpr (resolveStmtList stmts (enterScope st))
    obtain ⟨fr2, hfr⟩ := hsh1 [] st.scopes rfl
    rw [enterScope_env] at hv1 hi1
    have hex : (exitScope (resolveOptExpr finalExpr
        (resolveStmtList stmts (enterScope st)))).scopes = st.scopes := by
      simp only [exitScope]
      rw [hs2, hfr]
      rfl
    refine ⟨hex, l1 ++ l2, ?_, ?_⟩
    · show (resolveOptExpr finalExpr
          (resolveStmtList stmts (enterScope st))).errs = _
      rw [he2, he1]
      show st.errs ++ l1 ++ l2 = _
      rw [List.append_assoc]
    · intro h
      obtain ⟨e1, e2⟩ := List.append_eq_nil.mp h
      rw [hv1] at hi2
      rw [hi1 e1, hi2 e2]
      rfl
  | ifE c t e =>
    intro st
    simp only [resolveExpr, specExpr]
    exact spec_comp2 (spec_comp2 (resolveExpr_spec c) (resolveExpr_spec t))
      (resolveOptExpr_spec e) st
  | closure params rt body =>
    intro st
    simp only [resolveExpr, specExpr]
    obtain ⟨fr2, hcs, hcn, hce⟩ :=
      closureParamsInsert_spec params (enterScope st) [] st.scopes rfl
    obtain ⟨hs2, l2, he2, hi2⟩ :=
      resolveExpr_spec body (closureParamsInsert params (enterScope st))
    simp only [List.map_nil] at hcn
    have hex : (exitScope (resolveExpr body
        (closureParamsInsert params (enterScope st)))).scopes = st.scopes := by
      simp only [exitScope]
      rw [hs2, hcs]
      rfl
    refine ⟨hex, l2, ?_, ?_⟩
    · show (resolveExpr body
          (closureParamsInsert params (enterScope st))).errs = _
      rw [he2, hce]
      rfl
    · intro h
      have := hi2 h
      rw [hcs] at this
      simp only [envOf, List.map_cons, hcn] at this
      exact this
  | assign t v =>
    intro st
    simp only [resolveExpr, specExpr]
    exact spec_comp2 (resolveExpr_spec t) (resolveExpr_spec v) st
  | compoundAssign op t v =>
    intro st
    simp only [resolveExpr, specExpr]
    exact spec_comp2 (resolveExpr_spec t) (resolveExpr_spec v) st
  | tuple es =>
    intro st
    simp only [resolveExpr, specExpr]
    exact resolveExprList_spec es st
  | arrayE es =>
    intro st
    simp only [resolveExpr, specExpr]
    exact resolveExprList_spec es st
  | refE e =>
    intro st
    simp only [resolveExpr, specExpr]
    exact resolveExpr_spec e st
  | mutRef e =>
    intro st
    simp only [resolveExpr, specExpr]
    exact resolveExpr_spec e st
  | move e =>
    intro st
    simp only [resolveExpr, specExpr]
    exact resolveExpr_spec e st
  | await e =>
    intro st
    simp only [resolveExpr, specExpr]
    exact resolveExpr_spec e st
  | tryE e =>
    intro st
    simp only [resolveExpr, specExpr]
    exact resolveExpr_spec e st
  | range s e incl =>
    intro st
    simp only [resolveExpr, specExpr]
    exact spec_comp2 (resolveOptExpr_spec s) (resolveOptExpr_spec e) st
  | construct tp fields =>
    intro st
    simp only [resolveExpr, specExpr]
    exact spec_comp2 (resolveOptExpr_spec tp) (resolveFieldInits_spec fields) st
  | matchE scrut arms =>
    intro st
    simp only [resolveExpr, specExpr]
    exact spec_comp2 (resolveExpr_spec scrut) (resolveArms_spec arms) st

theorem resolveOptExpr_spec (e : Option Expr) :
    EOKP (resolveOptExpr e) (specOptExpr false e) := by
  cases e with
  | none =>
    intro st
    exact ⟨rfl, [], by rw [List.append_nil]; rfl, fun _ => rfl⟩
  | some e =>
    intro st
    simp only [resolveOptExpr, specOptExpr]
    exact resolveExpr_spec e st

theorem resolveExprList_spec (es : List Expr) :
    EOKP (resolveExprList es) (specExprList false es) := by
  cases es with
  | nil =>
    intro st
    exact ⟨rfl, [], by rw [List.append_nil]; rfl, fun _ => rfl⟩
  | cons e rest =>
    intro st
    simp only [resolveExprList, specExprList]
    exact spec_comp2 (resolveExpr_spec e) (resolveExprList_spec rest) st

theorem resolveArms_spec (arms : List MatchArm) :
    EOKP (resolveArms arms) (specArms false arms) := by
  cases arms with
  | nil =>
    intro st
    exact ⟨rfl, [], by rw [List.append_nil]; rfl, fun _ => rfl⟩
  | cons arm rest =>
    cases arm with
    | mk pat guard body =>
      intro st
      simp only [resolveArms, specArms]
      obtain ⟨hs1, l1, he1, hi1⟩ := resolveExpr_spec body (enterScope st)
      obtain ⟨hs2, l2, he2, hi2⟩ := resolveArms_spec rest
        (exitScope (resolveExpr body (enterScope st)))
      have hex : (exitScope (resolveExpr body (enterScope st))).scopes
          = st.scopes := by
        simp only [exitScope]
        rw [hs1]
        rfl
      rw [hex] at hs2 hi2
      refine ⟨hs2, l1 ++ l2, ?_, ?_⟩
      · rw [he2]
        show (resolveExpr body (enterScope st)).errs ++ l2 = _
        rw [he1]
        show st.errs ++ l1 ++ l2 = _
        rw [List.append_assoc]
      · intro h
        obtain ⟨e1, e2⟩ := List.append_eq_nil.mp h
        have hb := hi1 e1
        rw [enterScope_env] at hb
        simp [hb, hi2 e2]

theorem resolveFieldInits_spec (fs : List FieldInit) :
    EOKP (resolveFieldInits fs) (specFieldInits false fs) := by
  cases fs with
  | nil =>
    intro st
    exact ⟨rfl, [], by rw [List.append_nil]; rfl, fun _ => rfl⟩
  | cons f rest =>
    cases f with
    | mk n v =>
      intro st
      simp only [resolveFieldInits, specFieldInits]
      exact spec_comp2 (resolveExpr_spec v) (resolveFieldInits_spec rest) st

/-- Every statement walk of the resolver preserves the parent scope chain,
evolves the visible names as the spec-side checker says, only appends
diagnostics, and, when it appends none, leaves no identifier that the
checker (in resolver-visited positions) finds unresolved. -/
theorem resolveStmt_spec (s : Stmt) :
    SOKP (resolveStmt s) (specStmt false s) := by
  cases s with
  | letS name type initializer isMut =>
    intro st
    simp only [resolveStmt, specStmt]
    obtain ⟨hs1, l1, he1, hi1⟩ := resolveOptExpr_spec initializer st
    obtain ⟨l2, he2⟩ :=
      insertCurrent_errs (resolveOptExpr initializer st) name
        { kind := .varS, name := name, isMutable := isMut }
        (.redefinitionVariable name)
    refine ⟨?_, ?_, ?_⟩
    · intro fr rest h
      exact insertCurrent_tail _ name _ _ fr rest (hs1.trans h)
    · rw [insertCurrent_env, hs1]
    · exact ⟨l1 ++ l2, by rw [he2, he1, List.append_assoc],
        fun h => hi1 (List.append_eq_nil.mp h).1⟩
  | constS name type v =>
    intro st
    simp only [resolveStmt, specStmt]
    obtain ⟨hs1, l1, he1, hi1⟩ := resolveOptExpr_spec v st
    obtain ⟨l2, he2⟩ :=
      insertCurrent_errs (resolveOptExpr v st) name
        { kind := .varS, name := name, isMutable := false }
        (.redefinitionConstant name)
    refine ⟨?_, ?_, ?_⟩
    · intro fr rest h
      exact insertCurrent_tail _ name _ _ fr rest (hs1.trans h)
    · rw [insertCurrent_env, hs1]
    · exact ⟨l1 ++ l2, by rw [he2, he1, List.append_assoc],
        fun h => hi1 (List.append_eq_nil.mp h).1⟩
  | returnS v =>
    intro st
    simp only [resolveStmt, specStmt]
    obtain ⟨hs1, l1, he1, hi1⟩ := resolveOptExpr_spec v st
    exact ⟨fun fr rest h => ⟨fr, hs1.trans h⟩, by rw [hs1], l1, he1, hi1⟩
  | ifS c t e =>
    intro st
    simp only [resolveStmt, specStmt]
    exact sok_comp (sok_expr_stmt (resolveExpr_spec c) (resolveStmt_spec t))
      (resolveOptStmt_spec e) st
  | forS varName ty iter body =>
    intro st
    simp only [resolveStmt, specStmt]
    obtain ⟨hsiter, l1, he1, hi1⟩ := resolveExpr_spec iter st
    have hs1 : (enterScope (resolveExpr iter st)).scopes
        = [] :: st.scopes := by
      simp only [enterScope]
      rw [hsiter]
    have hs2 : (insertQuiet (enterScope (resolveExpr iter st)) varName
          { kind := .varS, name := varName }).scopes
        = (frameInsert [] varName { kind := .varS, name := varName }).2
            :: st.scopes := by
      simp [insertQuiet, hs1]
    obtain ⟨hshb, hvb, lb, heb, hib⟩ := resolveStmt_spec body
      (insertQuiet (enterScope (resolveExpr iter st)) varName
        { kind := .varS, name := varName })
    obtain ⟨frb, hb⟩ := hshb _ st.scopes hs2
    have hex : (exitScope (resolveStmt body
        (insertQuiet (enterScope (resolveExpr iter st)) varName
          { kind := .varS, name := varName }))).scopes = st.scopes := by
      simp only [exitScope]
      rw [hb]
      rfl
    have henv2 : envOf (insertQuiet (enterScope (resolveExpr iter st)) varName
          { kind := .varS, name := varName }).scopes
        = specFrameAdd [] varName :: envOf st.scopes := by
      rw [hs2]
      simp only [envOf, List.map_cons, frameInsert_names, List.map_nil]
    refine ⟨fun fr rest h => ⟨fr, by rw [hex, h]⟩, by rw [hex], ?_⟩
    refine ⟨l1 ++ lb, ?_, ?_⟩
    · show (resolveStmt body _).errs = _
      rw [heb, insertQuiet_errs]
      show (resolveExpr iter st).errs ++ lb = _
      rw [he1, List.append_assoc]
    · intro h
      obtain ⟨e1, e2⟩ := List.append_eq_nil.mp h
      have hb2 := hib e2
      rw [henv2] at hb2
      simp [hi1 e1, hb2]
  | whileS c b =>
    intro st
    simp only [resolveStmt, specStmt]
    exact sok_expr_stmt (resolveExpr_spec c) (resolveStmt_spec b) st
  | loopS b =>
    intro st
    simp only [resolveStmt, specStmt]
    exact resolveStmt_spec b st
  | blockS ss =>
    intro st
    simp only [resolveStmt, specStmt]
    obtain ⟨hsh1, hv1, l1, he1, hi1⟩ := resolveStmtList_spec ss (enterScope st)
    obtain ⟨fr2, hfr⟩ := hsh1 [] st.scopes rfl
    have hex : (exitScope (resolveStmtList ss (enterScope st))).scopes
        = st.scopes := by
      simp only [exitScope]
      rw [hfr]
      rfl
    rw [enterScope_env] at hi1
    refine ⟨fun fr rest h => ⟨fr, by rw [hex, h]⟩, by rw [hex], l1, ?_, ?_⟩
    · show (resolveStmtList ss (enterScope st)).errs = _
      rw [he1]
      rfl
    · intro h
      exact hi1 h
  | exprS e =>
    intro st
    simp only [resolveStmt, specStmt]
    obtain ⟨hs1, l1, he1, hi1⟩ := resolveExpr_spec e st
    exact ⟨fun fr rest h => ⟨fr, hs1.trans h⟩, by rw [hs1], l1, he1, hi1⟩
  | matchS scrut arms =>
    intro st
    simp only [resolveStmt, specStmt]
    obtain ⟨hs1, l1, he1, hi1⟩ := resolveExpr_spec scrut st
    refine ⟨fun fr rest h => ⟨fr, hs1.trans h⟩, by rw [hs1], l1, he1,
      fun h => ?_⟩
    simp [hi1 h]
  | breakS =>
    intro st
    exact ⟨fun fr rest h => ⟨fr, h⟩, rfl, [], by rw [List.append_nil]; rfl, fun _ => rfl⟩
  | continueS =>
    intro st
    exact ⟨fun fr rest h => ⟨fr, h⟩, rfl, [], by rw [List.append_nil]; rfl, fun _ => rfl⟩

theorem resolveOptStmt_spec (s : Option Stmt) :
    SOKP (resolveOptStmt s) (specOptStmt false s) := by
  cases s with
  | none =>
    intro st
    exact ⟨fun fr rest h => ⟨fr, h⟩, rfl, [], by rw [List.append_nil]; rfl, fun _ => rfl⟩
  | some s =>
    intro st
    simp only [resolveOptStmt, specOptStmt]
    exact resolveStmt_spec s st

theorem resolveStmtList_spec (ss : List Stmt) :
    SOKP (resolveStmtList ss) (specStmtList false ss) := by
  cases ss with
  | nil =>
    intro st
    exact ⟨fun fr rest h => ⟨fr, h⟩, rfl, [], by rw [List.append_nil]; rfl, fun _ => rfl⟩
  | cons s rest =>
    intro st
    simp only [resolveStmtList, specStmtList]
    exact sok_comp (resolveStmt_spec s) (resolveStmtList_spec rest) st

end

/-- NameResolver::resolveFunc preserves the scope chain, only appends
diagnostics, and, when it appends none, the spec-side checker finds no
unresolved identifier in the function. -/
theorem resolveFunc_spec (fd : FuncData) :
    EOKP (resolveFunc fd) (specFunc false fd) := by
  intro st
  obtain ⟨frg, hg1, hg2, hg3⟩ :=
    genericParamsInsert_spec fd.genericParams (enterScope st) [] st.scopes rfl
  obtain ⟨frp, hp1, hp2, hp3⟩ :=
    funcParamsInsert_spec fd.params
      (genericParamsInsert fd.genericParams (enterScope st)) frg st.scopes hg1
  simp only [List.map_nil] at hg2
  rw [hg2] at hp2
  cases hb : fd.body with
  | none =>
    simp only [resolveFunc, specFunc, hb]
    refine ⟨?_, [], ?_, fun _ => by trivial⟩
    · simp only [exitScope]
      rw [hp1]
      rfl
    · rw [List.append_nil]
      show (funcParamsInsert fd.params
        (genericParamsInsert fd.genericParams (enterScope st))).errs = _
      rw [hp3, hg3]
      rfl
  | some stmts =>
    simp only [resolveFunc, specFunc, hb]
    obtain ⟨hshL, hvL, lL, heL, hiL⟩ := resolveStmtList_spec stmts
      (funcParamsInsert fd.params
        (genericParamsInsert fd.genericParams (enterScope st)))
    obtain ⟨frL, hL⟩ := hshL frp st.scopes hp1
    have henv : envOf (funcParamsInsert fd.params
          (genericParamsInsert fd.genericParams (enterScope st))).scopes
        = specParamNames fd.params (specGenericNames fd.genericParams [])
            :: envOf st.scopes := by
      rw [hp1]
      simp only [envOf, List.map_cons, hp2]
    refine ⟨?_, lL, ?_, ?_⟩
    · simp only [exitScope]
      rw [hL]
      rfl
    · show (resolveStmtList stmts _).errs = _
      rw [heL, hp3, hg3]
      rfl
    · intro h
      have h2 := hiL h
      rw [henv] at h2
      exact h2

theorem resolveMethods_spec (ms : List FuncData) :
    EOKP (resolveMethods ms) (specMethods false ms) := by
  induction ms with
  | nil =>
    intro st
    exact ⟨rfl, [], by rw [List.append_nil]; rfl, fun _ => rfl⟩
  | cons m ms ih =>
    intro st
    simp only [resolveMethods, specMethods]
    exact spec_comp2 (resolveFunc_spec m) ih st

/-- NameResolver::resolveDecl (pass 2): scope chain preserved, visible
names evolve as the spec-side checker says (only enum variants add
names), diagnostics only accumulate, and an error-free walk leaves no
unresolved identifier in the checker's resolver-visited positions. -/
theorem resolveDecl_spec (d : Decl) :
    SOKP (resolveDecl d) (specDecl false d) := by
  cases d with
  | moduleD p =>
    intro st
    exact ⟨fun fr rest h => ⟨fr, h⟩, rfl, [],
      by rw [List.append_nil]; rfl, fun _ => rfl⟩
  | importD p a =>
    intro st
    exact ⟨fun fr rest h => ⟨fr, h⟩, rfl, [],
      by rw [List.append_nil]; rfl, fun _ => rfl⟩
  | typeAliasD name gens t vis =>
    intro st
    exact ⟨fun fr rest h => ⟨fr, h⟩, rfl, [],
      by rw [List.append_nil]; rfl, fun _ => rfl⟩
  | funcD fd =>
    intro st
    obtain ⟨hs1, l1, he1, hi1⟩ := resolveFunc_spec fd st
    exact ⟨fun fr rest h => ⟨fr, hs1.trans h⟩, congrArg envOf hs1,
      l1, he1, hi1⟩
  | structD name gens fl vis =>
    intro st
    obtain ⟨frg, hg1, hg2, hg3⟩ :=
      genericParamsInsert_spec gens (enterScope st) [] st.scopes rfl
    have hex : (resolveDecl (.structD name gens fl vis) st).scopes
        = st.scopes := by
      show (exitScope (genericParamsInsert gens (enterScope st))).scopes = _
      simp only [exitScope]
      rw [hg1]
      rfl
    refine ⟨fun fr rest h => ⟨fr, by rw [hex, h]⟩, by rw [hex]; rfl, [], ?_,
      fun _ => rfl⟩
    rw [List.append_nil]
    show (genericParamsInsert gens (enterScope st)).errs = _
    rw [hg3]
    rfl
  | classD name gens fl methods vis =>
    intro st
    obtain ⟨frg, hg1, hg2, hg3⟩ :=
      genericParamsInsert_spec gens (enterScope st) [] st.scopes rfl
    simp only [List.map_nil] at hg2
    obtain ⟨hsm, lm, hem, him⟩ := resolveMethods_spec methods
      (genericParamsInsert gens (enterScope st))
    have hex : (resolveDecl (.classD name gens fl methods vis) st).scopes
        = st.scopes := by
      show (exitScope (resolveMethods methods
        (genericParamsInsert gens (enterScope st)))).scopes = _
      simp only [exitScope]
      rw [hsm, hg1]
      rfl
    refine ⟨fun fr rest h => ⟨fr, by rw [hex, h]⟩, by rw [hex]; rfl, lm, ?_, ?_⟩
    · show (resolveMethods methods
        (genericParamsInsert gens (enterScope st))).errs = _
      rw [hem, hg3]
      rfl
    · intro h
      have h2 := him h
      rw [hg1] at h2
      simp only [envOf, List.map_cons, hg2] at h2
      exact h2
  | enumD name gens variants vis =>
    intro st
    obtain ⟨h1, h2, h3⟩ := resolveEnumVariants_spec name variants st
    exact ⟨h3, h1, [], by rw [List.append_nil]; exact h2, fun _ => rfl⟩
  | traitD name gens sup methods vis =>
    intro st
    obtain ⟨fr2, l2, h1, h2⟩ :=
      registerTraitMethods_spec methods (enterScope st) [] st.scopes rfl
    have hex : (resolveDecl (.traitD name gens sup methods vis) st).scopes
        = st.scopes := by
      show (exitScope (registerTraitMethods methods (enterScope st))).scopes = _
      simp only [exitScope]
      rw [h1]
      rfl
    refine ⟨fun fr rest h => ⟨fr, by rw [hex, h]⟩, by rw [hex]; rfl, l2, ?_,
      fun _ => rfl⟩
    show (registerTraitMethods methods (enterScope st)).errs = _
    rw [h2]
    rfl
  | implD t tr gens methods =>
    intro st
    obtain ⟨hsm, lm, hem, him⟩ := resolveMethods_spec methods (enterScope st)
    have hex : (resolveDecl (.implD t tr gens methods) st).scopes
        = st.scopes := by
      show (exitScope (resolveMethods methods (enterScope st))).scopes = _
      simp only [exitScope]
      rw [hsm]
      rfl
    refine ⟨fun fr rest h => ⟨fr, by rw [hex, h]⟩, by rw [hex]; rfl, lm, ?_, ?_⟩
    · show (resolveMethods methods (enterScope st)).errs = _
      rw [hem]
      rfl
    · intro h
      have h2 := him h
      rw [enterScope_env] at h2
      exact h2

theorem resolveDecls_spec (ds : List Decl) : ∀ st : RState,
    (∀ fr rest, st.scopes = fr :: rest →
      ∃ fr2, (resolveDecls ds st).scopes = fr2 :: rest) ∧
    ∃ l, (resolveDecls ds st).errs = st.errs ++ l ∧
      (l = [] → specDecls false ds (envOf st.scopes) = []) := by
  induction ds with
  | nil =>
    intro st
    exact ⟨fun fr rest h => ⟨fr, h⟩, [],
      by rw [List.append_nil]; rfl, fun _ => rfl⟩
  | cons d ds ih =>
    intro st
    obtain ⟨hshd, hvd, ld, hed, hid⟩ := resolveDecl_spec d st
    obtain ⟨hshl, ll, hel, hil⟩ := ih (resolveDecl d st)
    refine ⟨?_, ld ++ ll, ?_, ?_⟩
    · intro fr rest h
      obtain ⟨f1, h1⟩ := hshd fr rest h
      obtain ⟨f2, h2⟩ := hshl f1 rest h1
      exact ⟨f2, by simpa only [resolveDecls] using h2⟩
    · show (resolveDecls (d :: ds) st).errs = _
      simp only [resolveDecls]
      rw [hel, hed, List.append_assoc]
    · intro h
      obtain ⟨e1, e2⟩ := List.append_eq_nil.mp h
      have h2 := hil e2
      rw [hvd] at h2
      simp [specDecls, hid e1, h2]

/-- C2 (amended to the resolver-visited part of the claim): when
NameResolver::resolve(module) completes without emitting any error, every
Identifier expression in a position the resolver visits names a symbol in
its scope or an ancestor scope (the spec-side checker with full = false
reports no unresolved name).  The original claim also covers match-
statement arm bodies - positions the resolver never visits - and is
refuted by the separate counterexample. -/
theorem c2_amended_resolver_success (m : Module) :
    (resolveModule m (initRState [])).errs = [] →
      specModule false m = [] := by
  intro h
  obtain ⟨fr2, l0, hs1, hn1, he1⟩ :=
    registerDecls_spec m.declarations (initRState []) [] [] rfl
  obtain ⟨hsh, l1, he2, hi⟩ :=
    resolveDecls_spec m.declarations
      (registerDecls m.declarations (initRState []))
  simp only [List.map_nil] at hn1
  have hrm : resolveModule m (initRState [])
      = resolveDecls m.declarations
          (registerDecls m.declarations (initRState [])) := rfl
  rw [hrm, he2, he1] at h
  simp only [initRState, List.nil_append] at h
  obtain ⟨e0, e1⟩ := List.append_eq_nil.mp h
  have hspec := hi e1
  rw [hs1] at hspec
  simp only [envOf, List.map_cons, List.map_nil, hn1] at hspec
  simpa only [specModule] using hspec

/-- A module whose function body contains, in positions the resolver
skips, identifiers y, z and w that no scope declares: y in a match
statement arm body, z in a match expression arm guard, w in a struct
literal field value. -/
def M2 : Module where
  name := "m2"
  declarations := [.funcD { name := "f", body := some [
    .matchS (.intLit 1) [.mk .wildcard none (.ident "y")],
    .exprS (.matchE (.intLit 2) [.mk .wildcard (some (.ident "z"))
      (.intLit 3)]),
    .exprS (.structLit "P" [.mk "x" (.ident "w")])] }]

/-- A module on which resolution succeeds and whose identifiers all
resolve. -/
def M2ok : Module where
  name := "ok"
  declarations := [.funcD { name := "main", body := some [
    .letS "x" none (some (.intLit 1)) false,
    .exprS (.ident "x")] }]

/-- C2 counterexample: the resolver accepts M2 with no error, yet the
identifiers y, z, w - in a match-statement arm body, a match-expression
guard and a struct-literal field - resolve to nothing (the spec-side
checker with full = true reports exactly them); no
"use of undeclared identifier" diagnostic is emitted for them. -/
theorem c2_counterexample_unvisited_positions :
    (resolveModule M2 (initRState [])).errs = [] ∧
    specModule true M2 = ["y", "z", "w"] ∧
    specModule false M2 = [] :=
  ⟨rfl, rfl, rfl⟩

/-- C2 witness: a concrete module that resolves without error, with the
amended theorem applied to conclude its visited identifiers all
resolve. -/
theorem c2_amended_witness :
    (resolveModule M2ok (initRState [])).errs = [] ∧
    specModule false M2ok = [] :=
  ⟨rfl, c2_amended_resolver_success M2ok rfl⟩

end Flux
